import Mathlib

/-!
Verification of the transaction-processing core of `src/bankai/parser/hybrid_parser.py`
(class `HybridPDFParser`).

Strings are modelled as lists of characters (`Str`); the Python code under
scrutiny only manipulates ASCII text, and the Python string methods it uses
(`upper`, `strip`, `split`, `title`, `isupper`, `in`, slicing) are embedded
below with their ASCII semantics.  Monetary amounts are Python floats; a
model field of type `ℚ` holds the exact value of the decimal text the
amount was parsed from, and the float a program variable holds is `flt` of
that rational — `flt` is IEEE-754 binary64 rounding (round to nearest,
ties to even, subnormals, overflow to an infinity), implemented below on
integers so that it evaluates in the kernel.  The one float comparison the
source performs, `abs(float(a) - float(b)) < 0.02` in
`cross_reference_transactions`, is embedded by `fltAbsLt002`, which rounds
the subtraction and compares against the double nearest `0.02`; every
rational in the development is built with `mkRat` (never through rational
+, -, *, /), subtraction and absolute value being the kernel-computable
`ratSub` and `ratAbs` with bridge lemmas.  Python dictionaries holding
transactions are modelled by the structure `Txn`; for the `Debits` and
`Credits` keys, which `_build_transaction` can store as `None`, the model
distinguishes an absent key (`none`) from a present key holding `None`
(`some none`) and a present value (`some (some v)`); the remaining numeric
keys are only ever written with non-`None` values, so they carry plain
`Option ℚ`.  The `TypeError` that `float(None)` raises in
`cross_reference_transactions` is modelled by making that function return
`Except Unit`, `.error ()` being the raised exception.  The Ollama
language model is external input/output;
it is modelled by the oracle structure `LLM` whose `clean` and `classify`
fields stand for the network-dependent results of `llm_clean_merchant_name`
and `llm_classify_transaction`, with `available` standing for
`self.llm_available`; the guards the source places around those calls are
embedded verbatim, so an unavailable oracle is never consulted.
-/

set_option maxRecDepth 8000

abbrev Str := List Char

def mkStr (s : String) : Str := s.data

/-- ASCII decimal digit. -/
def isDigitC (c : Char) : Bool := ('0').toNat ≤ c.toNat && c.toNat ≤ ('9').toNat

/-- ASCII lowercase letter. -/
def isLowerC (c : Char) : Bool := ('a').toNat ≤ c.toNat && c.toNat ≤ ('z').toNat

/-- ASCII uppercase letter. -/
def isUpperC (c : Char) : Bool := ('A').toNat ≤ c.toNat && c.toNat ≤ ('Z').toNat

/-- ASCII letter, the ASCII case of Python `str.isalpha` on one character. -/
def isAlphaC (c : Char) : Bool := isLowerC c || isUpperC c

/-- Python regex `\s` and `str.strip` whitespace, ASCII range. -/
def isSpaceC (c : Char) : Bool :=
  c == ' ' || c == '\t' || c == '\n' || c == '\r' || c == '\x0b' || c == '\x0c'

/-- Python regex `\w`, ASCII range. -/
def isWordC (c : Char) : Bool := isAlphaC c || isDigitC c || c == '_'

/-- Python `str.upper` (ASCII). -/
def pyUpper (s : Str) : Str := s.map Char.toUpper

/-- Python `str.lower` (ASCII). -/
def pyLower (s : Str) : Str := s.map Char.toLower

/-- Python `str.strip()` with no argument. -/
def pyStrip (s : Str) : Str :=
  ((s.dropWhile isSpaceC).reverse.dropWhile isSpaceC).reverse

/-- Python substring test `needle in hay`. -/
def pyIn (needle : Str) : Str → Bool
  | [] => needle.isEmpty
  | c :: t => needle.isPrefixOf (c :: t) || pyIn needle t

/-- Python `str.startswith`. -/
def pyStarts (pre s : Str) : Bool := pre.isPrefixOf s

/-- Python `str.endswith`. -/
def pyEnds (suf s : Str) : Bool := suf.reverse.isPrefixOf s.reverse

/-- Python `str.split(sep)` for a one-character separator (keeps empty parts). -/
def pySplitOn (sep : Char) : Str → List Str
  | [] => [[]]
  | c :: t =>
    if c == sep then [] :: pySplitOn sep t
    else
      match pySplitOn sep t with
      | h :: r => (c :: h) :: r
      | [] => [[c]]

/-- Helper for `pySplitWs`: accumulates the current word reversed. -/
def splitWsGo (cur : Str) : Str → List Str
  | [] => if cur.isEmpty then [] else [cur.reverse]
  | c :: t =>
    if isSpaceC c then
      if cur.isEmpty then splitWsGo [] t else cur.reverse :: splitWsGo [] t
    else splitWsGo (c :: cur) t

/-- Python `str.split()` with no argument: split on whitespace runs, no empty parts. -/
def pySplitWs (s : Str) : List Str := splitWsGo [] s

/-- Python `sep.join(parts)`. -/
def pyJoin (sep : Str) (parts : List Str) : Str := List.intercalate sep parts

/-- Python `' '.join(s.split())`, the whitespace-collapsing idiom of the source. -/
def collapseWs (s : Str) : Str := pyJoin [' '] (pySplitWs s)

/-- Helper for `pyTitle`: Python `str.title`, tracking whether the previous character was cased. -/
def pyTitleGo (prevAlpha : Bool) : Str → Str
  | [] => []
  | c :: t =>
    (if isAlphaC c then (if prevAlpha then c.toLower else c.toUpper) else c) ::
      pyTitleGo (isAlphaC c) t

/-- Python `str.title` (ASCII). -/
def pyTitle (s : Str) : Str := pyTitleGo false s

/-- Python `str.isupper` (ASCII): at least one cased character and no lowercase one. -/
def pyIsUpper (s : Str) : Bool := s.any isAlphaC && s.all (fun c => !(isLowerC c))

/-- Python `str.isalpha` (ASCII): nonempty and all letters. -/
def pyIsAlpha (s : Str) : Bool := !s.isEmpty && s.all isAlphaC

/-- Value of a list of decimal digit characters. -/
def digitsVal (ds : Str) : Nat := ds.foldl (fun a c => a * 10 + (c.toNat - ('0').toNat)) 0

/-- Helper for `pyInt`: digits possibly separated by single underscores (Python 3 numeric literals). -/
def pyIntGo (acc : Nat) : Str → Option Nat
  | [] => some acc
  | '_' :: c :: cs =>
    if isDigitC c then pyIntGo (acc * 10 + (c.toNat - ('0').toNat)) cs else none
  | c :: cs =>
    if isDigitC c then pyIntGo (acc * 10 + (c.toNat - ('0').toNat)) cs else none

/-- Helper for `pyInt`: an unsigned decimal numeral. -/
def pyIntCore : Str → Option Nat
  | [] => none
  | c :: cs => if isDigitC c then pyIntGo (c.toNat - ('0').toNat) cs else none

/-- Python `int(s)` on a decimal string: surrounding whitespace, an optional
sign, then digits (ASCII); `none` models the `ValueError` path. -/
def pyInt (s : Str) : Option Int :=
  match pyStrip s with
  | '+' :: rest => (pyIntCore rest).map Int.ofNat
  | '-' :: rest => (pyIntCore rest).map (fun n => -(n : Int))
  | rest => (pyIntCore rest).map Int.ofNat

/-- Decimal numeral of a natural number, as characters (Python `str(n)` for `n ≥ 0`). -/
def natToStr (n : Nat) : Str := Nat.toDigits 10 n

/-- Python `str.zfill`. -/
def zfill (w : Nat) (s : Str) : Str :=
  match s with
  | '+' :: t => if w ≤ s.length then s else '+' :: (List.replicate (w - s.length) '0' ++ t)
  | '-' :: t => if w ≤ s.length then s else '-' :: (List.replicate (w - s.length) '0' ++ t)
  | _ => if w ≤ s.length then s else List.replicate (w - s.length) '0' ++ s

/-- Python slice `s[a:b]`. -/
def pySlice (s : Str) (a b : Nat) : Str := (s.drop a).take (b - a)

/-- The rational `a - b`, computed on numerators and denominators so that it
evaluates inside the kernel (`Rat.sub` of the ambient library is opaque to
`decide`).  `ratSub_eq` identifies it with ordinary subtraction. -/
def ratSub (a b : ℚ) : ℚ := mkRat (a.num * (b.den : Int) - b.num * (a.den : Int)) (a.den * b.den)

/-- The rational `|q|`, kernel-computable.  `ratAbs_eq` identifies it with `|q|`. -/
def ratAbs (q : ℚ) : ℚ := mkRat (q.num.natAbs : Int) q.den

/-- The test `|a - b| < tol` in exact rational arithmetic,
kernel-computable.  `ratAbsDiffLt_iff` identifies it with the ordinary
statement.  This is not the float comparison of the source (`fltAbsLt002`
below); the two differ on amounts whose exact difference equals the
tolerance. -/
def ratAbsDiffLt (a b tol : ℚ) : Bool := ratAbs (ratSub a b) < tol

theorem ratSub_eq (a b : ℚ) : ratSub a b = a - b := by
  have ha : ((a.den : ℚ)) ≠ 0 := by positivity
  have hb : ((b.den : ℚ)) ≠ 0 := by positivity
  have ka : ((a.num : ℚ)) = a * a.den := (div_eq_iff ha).mp (Rat.num_div_den a)
  have kb : ((b.num : ℚ)) = b * b.den := (div_eq_iff hb).mp (Rat.num_div_den b)
  rw [ratSub, Rat.mkRat_eq_div]
  push_cast
  rw [div_eq_iff (by positivity : ((a.den : ℚ)) * b.den ≠ 0)]
  linear_combination ((b.den : ℚ)) * ka - ((a.den : ℚ)) * kb

theorem ratAbs_eq (q : ℚ) : ratAbs q = |q| := by
  rcases abs_cases q with ⟨h1, h2⟩ | ⟨h1, h2⟩
  · rw [ratAbs, h1]
    have : ((q.num.natAbs : Int)) = q.num := by
      have := Rat.num_nonneg.mpr h2
      omega
    rw [this, Rat.mkRat_self]
  · rw [ratAbs, h1]
    have hneg : q.num ≤ 0 := Rat.num_nonpos.mpr (le_of_lt h2)
    have hna : ((q.num.natAbs : Int)) = -q.num := by omega
    have : mkRat ((q.num.natAbs : Int)) q.den = mkRat ((-q).num) ((-q).den) := by
      rw [Rat.neg_num, Rat.neg_den, hna]
    rw [this, Rat.mkRat_self]

theorem ratAbsDiffLt_iff (a b tol : ℚ) : ratAbsDiffLt a b tol = true ↔ |a - b| < tol := by
  rw [ratAbsDiffLt, ratSub_eq, ratAbs_eq, decide_eq_true_iff]

/-!
IEEE-754 binary64 ("double"), the representation of Python floats.  A
finite double is held as the exact rational it denotes; rounding is round
to nearest, ties to even, with gradual underflow (exponents clamped at
-1022) and overflow to an infinity.  Everything is computed on natural
numbers and `mkRat` so that it evaluates inside the kernel.  NaN cannot
arise in the expressions modelled here (`float` of a rational value and
subtraction of two finite doubles), and a comparison whose operand chain
passes through an infinity is folded to its Python result directly.
-/

/-- Floor of log2 on naturals, with explicit fuel (`n` itself suffices). -/
def log2go : Nat → Nat → Nat
  | 0, _ => 0
  | fuel + 1, n => if n ≤ 1 then 0 else log2go fuel (n / 2) + 1

/-- `⌊log2 n⌋` for positive `n`. -/
def natLog2 (n : Nat) : Nat := log2go n n

/-- Does `a / b ≥ 2 ^ k` hold (for positive `a`, `b`)? -/
def gePow2 (a b : Nat) (k : Int) : Bool :=
  if 0 ≤ k then decide (b * 2 ^ k.toNat ≤ a) else decide (b ≤ a * 2 ^ (-k).toNat)

/-- `⌊log2 (a / b)⌋` for positive `a`, `b`: the naive difference of the
natural logs is off by at most one, fixed by a single comparison. -/
def ratFloorLog2 (a b : Nat) : Int :=
  let k : Int := (natLog2 a : Int) - (natLog2 b : Int)
  if gePow2 a b k then k else k - 1

/-- Round the positive rational `n / d` to the binary64 grid (round to
nearest, ties to even): the result is `mant * 2 ^ exp` for the returned
pair `(mant, exp)`.  The grid step is `2 ^ (e - 52)` for exponent
`e = max ⌊log2 (n / d)⌋ (-1022)` (the clamp gives gradual underflow). -/
def rndMant (n d : Nat) : Nat × Int :=
  let e : Int := max (ratFloorLog2 n d) (-1022)
  let s : Int := e - 52
  let N : Nat := n * 2 ^ (-s).toNat
  let D : Nat := d * 2 ^ s.toNat
  let q : Nat := N / D
  let r : Nat := N % D
  let m : Nat := if 2 * r < D then q else if D < 2 * r then q + 1
    else if q % 2 = 0 then q else q + 1
  (m, s)

/-- A Python float: a finite double (held as the exact rational it
denotes) or an infinity. -/
inductive PFloat where
  | finite : ℚ → PFloat
  | pinf : PFloat
  | ninf : PFloat
  deriving DecidableEq

/-- The rational `-q`, kernel-computable. -/
def ratNeg (q : ℚ) : ℚ := mkRat (-q.num) q.den

/-- The binary64 value of the exact rational `q`: round to nearest, ties
to even; magnitudes reaching `2 ^ 1024` after rounding overflow to an
infinity.  A finite double is a fixed point of `flt`. -/
def flt (q : ℚ) : PFloat :=
  if q = 0 then .finite 0
  else
    let p := rndMant q.num.natAbs q.den
    let ovf : Bool :=
      if 0 ≤ p.2 then decide (2 ^ 1024 ≤ p.1 * 2 ^ p.2.toNat)
      else decide (2 ^ (1024 + (-p.2).toNat) ≤ p.1)
    if ovf then (if q.num < 0 then .ninf else .pinf)
    else
      let mag : ℚ := if 0 ≤ p.2 then mkRat ((p.1 * 2 ^ p.2.toNat : Nat) : Int) 1
        else mkRat (p.1 : Int) (2 ^ (-p.2).toNat)
      .finite (if q.num < 0 then ratNeg mag else mag)

/-- The double nearest `0.02`, the literal of the tolerance test in
`cross_reference_transactions` (its exact value is
`5764607523034235 / 2 ^ 58`, slightly above `1 / 50`). -/
def c02 : ℚ :=
  match flt (mkRat 2 100) with
  | .finite v => v
  | _ => 0

/-- The comparison `abs(float(a) - float(b)) < 0.02` of
`cross_reference_transactions` in binary64 semantics: both operands are
rounded, the subtraction rounds its exact result, `abs` is exact on a
finite double, and `0.02` denotes `c02`.  When an operand or the
difference is infinite the comparison is false (`|±inf| < 0.02` is false,
and `inf - inf` gives NaN, every comparison on which is false). -/
def fltAbsLt002 (qa qb : ℚ) : Bool :=
  match flt qa, flt qb with
  | .finite x, .finite y =>
    match flt (ratSub x y) with
    | .finite d => decide (ratAbs d < c02)
    | _ => false
  | _, _ => false

/-!
A small backtracking regular-expression engine with Python `re` semantics
for the constructs the source uses: character classes, greedy and lazy
quantifiers, alternation (leftmost preference), groups, `^`/`$` (without
MULTILINE: `$` also matches before a final newline), word boundaries,
lookahead, and the IGNORECASE flag.  `reMs` enumerates the end positions of
all matches of a regex at a given position, in backtracking priority
order, so that the head of the list is the match Python selects.
-/

/-- One item of a character class. -/
inductive CItem where
  | ch (c : Char)
  | range (lo hi : Char)
  | digit
  | word
  | space
  deriving DecidableEq

/-- Regular expressions, Python `re` subset. -/
inductive RE where
  | eps
  | chr (c : Char)
  | cls (neg : Bool) (items : List CItem)
  | anyc
  | cat (r1 r2 : RE)
  | alt (r1 r2 : RE)
  | star (r : RE)
  | starL (r : RE)
  | group (idx : Nat) (r : RE)
  | bol
  | eol
  | wordB
  | look (r : RE)
  deriving DecidableEq

/-- Does a class item accept a character (before case folding)? -/
def cItemMatch : CItem → Char → Bool
  | .ch a, c => a == c
  | .range lo hi, c => lo.toNat ≤ c.toNat && c.toNat ≤ hi.toNat
  | .digit, c => isDigitC c
  | .word, c => isWordC c
  | .space, c => isSpaceC c

/-- Class item acceptance under an optional IGNORECASE flag. -/
def cItemMatchCI (ci : Bool) (it : CItem) (c : Char) : Bool :=
  cItemMatch it c || (ci && (cItemMatch it c.toLower || cItemMatch it c.toUpper))

/-- Full class acceptance (with negation). -/
def clsMatch (ci neg : Bool) (items : List CItem) (c : Char) : Bool :=
  let m := items.any (fun it => cItemMatchCI ci it c)
  if neg then !m else m

/-- Literal character acceptance under IGNORECASE. -/
def chrMatch (ci : Bool) (a c : Char) : Bool := a == c || (ci && a.toLower == c.toLower)

/-- Captured groups: (group index, start, stop); most recent first. -/
abbrev Caps := List (Nat × Nat × Nat)

/-- Structural size of a regex, used to bound the recursion depth of `reMs`. -/
def reSize : RE → Nat
  | .eps => 1
  | .chr _ => 1
  | .cls _ _ => 1
  | .anyc => 1
  | .cat r1 r2 => 1 + reSize r1 + reSize r2
  | .alt r1 r2 => 1 + reSize r1 + reSize r2
  | .star r => 1 + reSize r
  | .starL r => 1 + reSize r
  | .group _ r => 1 + reSize r
  | .bol => 1
  | .eol => 1
  | .wordB => 1
  | .look r => 1 + reSize r

/-- All matches of a regex at position `i` of `inp`: end position and
captures, listed in backtracking priority order (head = Python's selected
match).  The recursion is structural on a fuel argument; every recursive
call strictly decreases the lexicographic measure (remaining input, regex
size), whose chains are shorter than the fuel `reFuel` supplies, so the
fuel never runs out when the engine is entered through the top-level
wrappers below.  A starred body is iterated only when it consumed at least
one character, which is also Python's behaviour (an empty iteration never
repeats). -/
def reMs (inp : Str) (ci : Bool) : Nat → RE → Nat → List (Nat × Caps)
  | 0, _, _ => []
  | _ + 1, .eps, i => [(i, [])]
  | _ + 1, .chr c, i =>
    match inp[i]? with
    | some x => if chrMatch ci c x then [(i + 1, [])] else []
    | none => []
  | _ + 1, .cls neg items, i =>
    match inp[i]? with
    | some x => if clsMatch ci neg items x then [(i + 1, [])] else []
    | none => []
  | _ + 1, .anyc, i =>
    match inp[i]? with
    | some x => if x == '\n' then [] else [(i + 1, [])]
    | none => []
  | fuel + 1, .cat r1 r2, i =>
    (reMs inp ci fuel r1 i).flatMap (fun p =>
      (reMs inp ci fuel r2 p.1).map (fun q => (q.1, q.2 ++ p.2)))
  | fuel + 1, .alt r1 r2, i => reMs inp ci fuel r1 i ++ reMs inp ci fuel r2 i
  | fuel + 1, .star r, i =>
    ((reMs inp ci fuel r i).flatMap (fun p =>
      if i < p.1 then
        (reMs inp ci fuel (.star r) p.1).map (fun q => (q.1, q.2 ++ p.2))
      else [])) ++ [(i, [])]
  | fuel + 1, .starL r, i =>
    (i, ([] : Caps)) :: (reMs inp ci fuel r i).flatMap (fun p =>
      if i < p.1 then
        (reMs inp ci fuel (.starL r) p.1).map (fun q => (q.1, q.2 ++ p.2))
      else [])
  | fuel + 1, .group idx r, i =>
    (reMs inp ci fuel r i).map (fun p => (p.1, (idx, i, p.1) :: p.2))
  | _ + 1, .bol, i => if i == 0 then [(i, [])] else []
  | _ + 1, .eol, i =>
    if i == inp.length || (i + 1 == inp.length && inp[i]? == some '\n') then [(i, [])]
    else []
  | _ + 1, .wordB, i =>
    let pw := if i == 0 then false else
      match inp[i - 1]? with
      | some c => isWordC c
      | none => false
    let nw := match inp[i]? with
      | some c => isWordC c
      | none => false
    if pw != nw then [(i, [])] else []
  | fuel + 1, .look r, i =>
    match (reMs inp ci fuel r i).head? with
    | some p => [(i, p.2)]
    | none => []

/-- Fuel that exceeds every lexicographic chain of `reMs` on `inp` and `r`. -/
def reFuel (inp : Str) (r : RE) : Nat := (inp.length + 2) * (reSize r + 2)

/-- Python `re.match(pat, s)`: match anchored at position 0; returns the end
position and the captures of the selected match. -/
def pyReMatch (r : RE) (ci : Bool) (s : Str) : Option (Nat × Caps) :=
  (reMs s ci (reFuel s r) r 0).head?

/-- Helper for `pyReSearch`: first position at or after `i` where the regex
matches; structural on the remaining scan length. -/
def pyReSearchFrom (r : RE) (ci : Bool) (s : Str) : Nat → Nat → Option (Nat × Nat × Caps)
  | 0, _ => none
  | fuel + 1, i =>
    if i ≤ s.length then
      match (reMs s ci (reFuel s r) r i).head? with
      | some p => some (i, p.1, p.2)
      | none =>
        if i < s.length then pyReSearchFrom r ci s fuel (i + 1) else none
    else none

/-- Python `re.search(pat, s)`: leftmost match; (start, end, captures). -/
def pyReSearch (r : RE) (ci : Bool) (s : Str) : Option (Nat × Nat × Caps) :=
  pyReSearchFrom r ci s (s.length + 1) 0

/-- Helper for `pyFindIter`: scan for non-overlapping matches from position `i`,
advancing by one character after an empty match (Python 3.7+ scanning rule). -/
def pyFindIterFrom (r : RE) (ci : Bool) (s : Str) : Nat → Nat → List (Nat × Nat × Caps)
  | 0, _ => []
  | fuel + 1, i =>
    if i < s.length then
      match (reMs s ci (reFuel s r) r i).head? with
      | some p =>
        if i < p.1 then (i, p.1, p.2) :: pyFindIterFrom r ci s fuel p.1
        else (i, p.1, p.2) :: pyFindIterFrom r ci s fuel (i + 1)
      | none => pyFindIterFrom r ci s fuel (i + 1)
    else if i == s.length then
      match (reMs s ci (reFuel s r) r i).head? with
      | some p => [(i, p.1, p.2)]
      | none => []
    else []

/-- Python `re.finditer(pat, s)`: (start, end, captures) of each match. -/
def pyFindIter (r : RE) (ci : Bool) (s : Str) : List (Nat × Nat × Caps) :=
  pyFindIterFrom r ci s (s.length + 1) 0

/-- One piece of a `re.sub` replacement template. -/
inductive RPiece where
  | lit (s : Str)
  | grp (n : Nat)
  deriving DecidableEq

/-- Captured span of group `n`, most recent write wins. -/
def capLookup (caps : Caps) (n : Nat) : Option (Nat × Nat) :=
  (caps.find? (fun t => t.1 == n)).map (fun t => t.2)

/-- Expand a replacement template against the input and the captures of one match. -/
def expandRepl (s : Str) (caps : Caps) : List RPiece → Str
  | [] => []
  | .lit l :: ps => l ++ expandRepl s caps ps
  | .grp n :: ps =>
    (match capLookup caps n with
     | some (a, b) => pySlice s a b
     | none => []) ++ expandRepl s caps ps

/-- Helper for `pyReSub`: rebuild the string from position `i`, replacing
each selected match (Python 3.7+ semantics for empty matches: the
replacement is written and the current character is copied before
advancing); structural on the remaining scan length. -/
def pyReSubFrom (r : RE) (ci : Bool) (repl : List RPiece) (s : Str) : Nat → Nat → Str
  | 0, _ => []
  | fuel + 1, i =>
    if i < s.length then
      match (reMs s ci (reFuel s r) r i).head? with
      | some p =>
        if i < p.1 then
          expandRepl s p.2 repl ++ pyReSubFrom r ci repl s fuel p.1
        else
          expandRepl s p.2 repl ++ s.getD i ' ' :: pyReSubFrom r ci repl s fuel (i + 1)
      | none => s.getD i ' ' :: pyReSubFrom r ci repl s fuel (i + 1)
    else if i == s.length then
      match (reMs s ci (reFuel s r) r i).head? with
      | some p => expandRepl s p.2 repl
      | none => []
    else []

/-- Python `re.sub(pat, repl, s)` (no count limit; the source never passes one). -/
def pyReSub (r : RE) (ci : Bool) (repl : List RPiece) (s : Str) : Str :=
  pyReSubFrom r ci repl s (s.length + 1) 0

/-- Replacement template that deletes the match. -/
def rEmpty : List RPiece := [.lit []]

/-- Replacement template of one literal string. -/
def rLit (s : String) : List RPiece := [.lit s.data]

/-- Concatenation of a list of regexes. -/
def rcat : List RE → RE
  | [] => .eps
  | [r] => r
  | r :: rs => .cat r (rcat rs)

/-- Alternation of a list of regexes, leftmost preferred. -/
def ralts : List RE → RE
  | [] => .eps
  | [r] => r
  | r :: rs => .alt r (ralts rs)

/-- Literal string regex. -/
def rstr (s : String) : RE := rcat (s.data.map RE.chr)

/-- Greedy `r?`. -/
def ropt (r : RE) : RE := .alt r .eps

/-- Greedy `r+`. -/
def rplus (r : RE) : RE := .cat r (.star r)

/-- Exactly `n` copies of `r`. -/
def rrep (r : RE) : Nat → RE
  | 0 => .eps
  | n + 1 => .cat r (rrep r n)

/-- Greedy `r{0,n}`. -/
def roptN (r : RE) : Nat → RE
  | 0 => .eps
  | n + 1 => .alt (.cat r (roptN r n)) .eps

/-- Greedy `r{lo,hi}`. -/
def rbetween (r : RE) (lo hi : Nat) : RE := .cat (rrep r lo) (roptN r (hi - lo))

/-- Greedy `r{lo,}`. -/
def ratLeast (r : RE) (lo : Nat) : RE := .cat (rrep r lo) (.star r)

/-- Class regex from items. -/
def rcls (items : List CItem) : RE := .cls false items

/-- Negated class regex. -/
def rncls (items : List CItem) : RE := .cls true items

/-- The class `\d`. -/
def rdig : RE := rcls [.digit]

/-- The class `\s`. -/
def rsp : RE := rcls [.space]

/-- The class `\S`. -/
def rnsp : RE := rncls [.space]

/-- The class `\w`. -/
def rword : RE := rcls [.word]

/-!
Data model.  A `Txn` models the Python transaction dictionary built by
`_build_transaction`.  The `Amount` and `Balance` keys are only ever
written with non-`None` float values, so they are an `Option ℚ` (`none` =
key absent).  The `Debits` and `Credits` keys are stored by
`_build_transaction` as `amounts[i] if amounts[i] > 0 else None`, so a
present key can hold `None`: they are an `Option (Option ℚ)` — `none` =
key absent, `some none` = key present holding `None`, `some (some v)` =
key present holding the value `v`.  `Cache` models
`self.merchant_cache`; `LLM` models the external Ollama service as
described in the header.
-/

structure Txn where
  transactionDate : Str := []
  place : Str := []
  placeOriginal : Str := []
  amount : Option ℚ := none
  balance : Option ℚ := none
  debits : Option (Option ℚ) := none
  credits : Option (Option ℚ) := none
  manualReview : Bool := false
  extractionMethod : Option Str := none
  deriving DecidableEq, Inhabited

abbrev Cache := List (Str × Str)

/-- Python `self.merchant_cache.get`/`in`: first binding of the key. -/
def cacheGet (c : Cache) (k : Str) : Option Str :=
  (c.find? (fun p => p.1 == k)).map (fun p => p.2)

/-- Python `self.merchant_cache[k] = v`. -/
def cacheSet (c : Cache) (k v : Str) : Cache :=
  if (c.find? (fun p => p.1 == k)).isSome then
    c.map (fun p => if p.1 == k then (k, v) else p)
  else c ++ [(k, v)]

/-- Oracle for the language-model service (see the header).  The amount
handed to either endpoint may be Python `None` (`none`). -/
structure LLM where
  available : Bool
  clean : Str → Option ℚ → Option Str → Str
  classify : Str → Option ℚ → Str

/-- The unavailable service: `_check_llm` returned false, so
`llm_clean_merchant_name` returns its argument and `llm_classify_transaction`
returns the default label. -/
def llmOff : LLM :=
  { available := false, clean := fun s _ _ => s, classify := fun _ _ => mkStr ("expense") }

/-!
The regular expressions of `_clean_merchant_name`, `_normalize_llm_output`,
`parse_transaction_block`, `parse_transactions` and `validate_transactions`,
transcribed pattern by pattern from the source.
-/

/-- Class `[A-Z]`. -/
def rAZ : RE := rcls [.range 'A' 'Z']

/-- Class `[a-z]`. -/
def raz : RE := rcls [.range 'a' 'z']

/-- Class `[A-Z0-9]`. -/
def rAZ09 : RE := rcls [.range 'A' 'Z', .range '0' '9']

/-- Pattern `^\$[\d,]+\.?\d*\s+AT\s+\d{1,2}:\d{2}` (ATM withdrawals). -/
def patATM : RE :=
  rcat [.bol, .chr '$', rplus (rcls [.digit, .ch ',']), ropt (.chr '.'), .star rdig,
    rplus rsp, rstr ("AT"), rplus rsp, rbetween rdig 1 2, .chr ':', rrep rdig 2]

/-- Pattern `\bXX+\d{4}\b` (card numbers). -/
def patXX : RE := rcat [.wordB, .chr 'X', rplus (.chr 'X'), rrep rdig 4, .wordB]

/-- Pattern `^(Gino|Jaison|jazionn)\s+` (IGNORECASE). -/
def patNamePre : RE :=
  rcat [.bol, .group 1 (ralts [rstr ("Gino"), rstr ("Jaison"), rstr ("jazionn")]), rplus rsp]

/-- Pattern `^(Payment\.ACH|Payment\.|ACH\s+)` (IGNORECASE). -/
def patPay : RE :=
  rcat [.bol, .group 1 (ralts [rstr ("Payment.ACH"), rstr ("Payment."),
    .cat (rstr ("ACH")) (rplus rsp)])]

/-- Pattern `^[=\-><]\s+` (leading special characters). -/
def patLeadSpecial : RE := rcat [.bol, rcls [.ch '=', .ch '-', .ch '>', .ch '<'], rplus rsp]

/-- Pattern `^(RECUR\.?\s*PURCHASE\.?\s*|POS\s+(?:PURCHASE\s+)?AT\s+|PURCHASE\s+AT\s+)` (IGNORECASE). -/
def patTxnType : RE :=
  rcat [.bol, .group 1 (ralts [
    rcat [rstr ("RECUR"), ropt (.chr '.'), .star rsp, rstr ("PURCHASE"), ropt (.chr '.'), .star rsp],
    rcat [rstr ("POS"), rplus rsp, ropt (rcat [rstr ("PURCHASE"), rplus rsp]), rstr ("AT"), rplus rsp],
    rcat [rstr ("PURCHASE"), rplus rsp, rstr ("AT"), rplus rsp]])]

/-- Pattern `\s+RECUR\s+PURCHASE\.?\s*` (IGNORECASE, replaced by a space). -/
def patRecurMid : RE :=
  rcat [rplus rsp, rstr ("RECUR"), rplus rsp, rstr ("PURCHASE"), ropt (.chr '.'), .star rsp]

/-- Pattern `^\d{1,2}\s+` (leading single digits). -/
def patLeadDigits : RE := rcat [.bol, rbetween rdig 1 2, rplus rsp]

/-- Pattern `(\w)(\d{3,})(?=\s|$)` (store numbers attached to names, replaced by group 1). -/
def patStoreNum : RE :=
  rcat [.group 1 rword, .group 2 (ratLeast rdig 3), .look (ralts [rsp, .eol])]

/-- Pattern `\s+[A-Z0-9]{1,2}$` (trailing short codes). -/
def patTrail12 : RE := rcat [rplus rsp, rbetween rAZ09 1 2, .eol]

/-- Pattern `\s*\d{3}-\d{3}-\d{4}` (phone numbers). -/
def patPhone1 : RE :=
  rcat [.star rsp, rrep rdig 3, .chr '-', rrep rdig 3, .chr '-', rrep rdig 4]

/-- Pattern `\s+\d{10}\b`. -/
def patPhone2 : RE := rcat [rplus rsp, rrep rdig 10, .wordB]

/-- Pattern `\s+\d{3}-\d{7}`. -/
def patPhone3 : RE := rcat [rplus rsp, rrep rdig 3, .chr '-', rrep rdig 7]

/-- Pattern `\s+[A-Z0-9]{10,}\b` (reference codes). -/
def patRefCode : RE := rcat [rplus rsp, ratLeast rAZ09 10, .wordB]

/-- Pattern `\s+[a-f0-9]{8,}\b` (hex codes). -/
def patHex : RE := rcat [rplus rsp, ratLeast (rcls [.range 'a' 'f', .range '0' '9']) 8, .wordB]

/-- Pattern `\s+\d{8,}\b` (payment reference numbers). -/
def patPayRef : RE := rcat [rplus rsp, ratLeast rdig 8, .wordB]

/-- Processor pattern `^SQSP\s*\*` (IGNORECASE). -/
def ppSQSP : RE := rcat [.bol, rstr ("SQSP"), .star rsp, .chr '*']

/-- Processor pattern `^CASH\s+APP\s*\*` (IGNORECASE). -/
def ppCashApp : RE := rcat [.bol, rstr ("CASH"), rplus rsp, rstr ("APP"), .star rsp, .chr '*']

/-- Processor pattern `^BP[#\d]` (IGNORECASE). -/
def ppBP : RE := rcat [.bol, rstr ("BP"), rcls [.ch '#', .digit]]

/-- Processor pattern `^SQ\s*\*` (IGNORECASE). -/
def ppSQ : RE := rcat [.bol, rstr ("SQ"), .star rsp, .chr '*']

/-- Extraction pattern `SQ\s*\*\s*([A-Z][A-Z0-9&\s]+)` (IGNORECASE). -/
def ppSQext : RE :=
  rcat [rstr ("SQ"), .star rsp, .chr '*', .star rsp,
    .group 1 (rcat [rAZ, rplus (rcls [.range 'A' 'Z', .range '0' '9', .ch '&', .space])])]

/-- Processor pattern `^WL\s*\*` (IGNORECASE). -/
def ppWL : RE := rcat [.bol, rstr ("WL"), .star rsp, .chr '*']

/-- Strip pattern `^WL\s*\*\s*` (IGNORECASE). -/
def ppWLstrip : RE := rcat [.bol, rstr ("WL"), .star rsp, .chr '*', .star rsp]

/-- Pattern `\s+WEB[ _](?:PMTS?|PAY)\s+\S+` (IGNORECASE). -/
def patWeb : RE :=
  rcat [rplus rsp, rstr ("WEB"), rcls [.ch ' ', .ch '_'],
    ralts [rcat [rstr ("PMT"), ropt (.chr 'S')], rstr ("PAY")], rplus rsp, rplus rnsp]

/-- Pattern `\s*#\s*\d+` (store numbers). -/
def patStoreHash : RE := rcat [.star rsp, .chr '#', .star rsp, rplus rdig]

/-- Pattern `[-\s]+[A-Z]{5,}$` (trailing all-caps gibberish). -/
def patTrailCaps : RE := rcat [rplus (rcls [.ch '-', .space]), ratLeast rAZ 5, .eol]

/-- Pattern `\s+\d{3}-\d{7}$`. -/
def patPhoneEnd : RE := rcat [rplus rsp, rrep rdig 3, .chr '-', rrep rdig 7, .eol]

/-- Pattern `%[^%]+%` (percentage codes). -/
def patPercent : RE := rcat [.chr '%', rplus (rncls [.ch '%']), .chr '%']

/-- Pattern `\s+\d{4,5}$` (trailing zip codes). -/
def patZip : RE := rcat [rplus rsp, rbetween rdig 4 5, .eol]

/-- Pattern `\s+[A-Z][a-z]+\s+[A-Z]{2}$` (city/state at end). -/
def patCitySt : RE := rcat [rplus rsp, rAZ, rplus raz, rplus rsp, rrep rAZ 2, .eol]

/-- Pattern `\s+[A-Z]{2}\s*\d*$` (standalone state codes). -/
def patStCode : RE := rcat [rplus rsp, rrep rAZ 2, .star rsp, .star rdig, .eol]

/-- Pattern `^(?:TST|SQ|PAW)\s*-\s*` (IGNORECASE). -/
def patTstPre : RE :=
  rcat [.bol, ralts [rstr ("TST"), rstr ("SQ"), rstr ("PAW")], .star rsp, .chr '-', .star rsp]

/-- Pattern `\s+\d+\s+[A-Z]{2}\s+\d+$` (trailing codes). -/
def patTrailCode1 : RE :=
  rcat [rplus rsp, rplus rdig, rplus rsp, rrep rAZ 2, rplus rsp, rplus rdig, .eol]

/-- Pattern `\s+\d{3}-\d+$`. -/
def patTrailCode2 : RE := rcat [rplus rsp, rrep rdig 3, .chr '-', rplus rdig, .eol]

/-- Pattern `\s+OIL$` (IGNORECASE). -/
def patOil : RE := rcat [rplus rsp, rstr ("OIL"), .eol]

/-- Pattern `\s+Help\.\w+\.Com` (IGNORECASE). -/
def patHelp : RE := rcat [rplus rsp, rstr ("Help."), rplus rword, rstr (".Com")]

/-- Pattern `\s+Hwy\s+\d+` (IGNORECASE). -/
def patHwy : RE := rcat [rplus rsp, rstr ("Hwy"), rplus rsp, rplus rdig]

/-- Pattern `\s+-\s*$` (standalone hyphens). -/
def patTrailHyph : RE := rcat [rplus rsp, .chr '-', .star rsp, .eol]

/-- Pattern `^\s*-\s+`. -/
def patLeadHyph : RE := rcat [.bol, .star rsp, .chr '-', rplus rsp]

/-- Pattern `\s+[A-Z]\d+[A-Z]$` (short trailing codes). -/
def patMidCode : RE := rcat [rplus rsp, rAZ, rplus rdig, rAZ, .eol]

/-- Pattern `\s+[A-Z]{1,2}$`. -/
def patTrailAZ12 : RE := rcat [rplus rsp, rbetween rAZ 1 2, .eol]

/-- Pattern `\s+` (whitespace collapse, replaced by a space). -/
def patWs : RE := rplus rsp

/-- Pattern `\s+\d+$` (trailing numbers). -/
def patTrailNum : RE := rcat [rplus rsp, rplus rdig, .eol]

/-- Pattern `([A-Z])AND([A-Z])`, replaced by `\1 AND \2`. -/
def patAND : RE := rcat [.group 1 rAZ, rstr ("AND"), .group 2 rAZ]

/-- Pattern `([a-z])([A-Z])`, replaced by `\1 \2`. -/
def patCamel : RE := rcat [.group 1 raz, .group 2 rAZ]

/-- Artifact pattern `\(No location information.*?\)` (IGNORECASE). -/
def pnLoc1 : RE := rcat [.chr '(', rstr ("No location information"), .starL .anyc, .chr ')']

/-- Artifact pattern `\(No location.*?\)` (IGNORECASE). -/
def pnLoc2 : RE := rcat [.chr '(', rstr ("No location"), .starL .anyc, .chr ')']

/-- Artifact pattern `No location information provided.*` (IGNORECASE). -/
def pnLoc3 : RE := rcat [rstr ("No location information provided"), .star .anyc]

/-- Artifact pattern `Yes, the transaction name is:?` (IGNORECASE). -/
def pnYes : RE := rcat [rstr ("Yes, the transaction name is"), ropt (.chr ':')]

/-- Artifact pattern `The transaction name is:?` (IGNORECASE). -/
def pnThe : RE := rcat [rstr ("The transaction name is"), ropt (.chr ':')]

/-- Artifact pattern `A fun one!` (IGNORECASE). -/
def pnFun1 : RE := rstr ("A fun one!")

/-- Artifact pattern `A fun transaction!` (IGNORECASE). -/
def pnFun2 : RE := rstr ("A fun transaction!")

/-- Artifact pattern `the transaction details:` (IGNORECASE). -/
def pnDetails : RE := rstr ("the transaction details:")

/-- Pattern `^[,\s]+|[,\s]+$` (punctuation at the ends). -/
def pnEnds : RE :=
  .alt (rcat [.bol, rplus (rcls [.ch ',', .space])]) (rcat [rplus (rcls [.ch ',', .space]), .eol])

/-- The acronyms preserved by the title-case fallback of `_clean_merchant_name`. -/
def acronymList : List Str :=
  [mkStr ("ATM"), mkStr ("POS"), mkStr ("ACH"), mkStr ("USA"), mkStr ("LLC"),
   mkStr ("INC"), mkStr ("BP"), mkStr ("ND"), mkStr ("MN")]

/-- The trailing words removed by `_normalize_llm_output`. -/
def extraWordsList : List Str :=
  [mkStr ("Purchase"), mkStr ("Supercenter"), mkStr ("Store"), mkStr ("Location"),
   mkStr ("Branch"), mkStr ("Retailer"), mkStr ("LLC"), mkStr ("Inc"),
   mkStr ("Corporation"), mkStr ("Company")]

/-- The asterisk-splitting step of `_clean_merchant_name`: when the name
contains `*`, split once at it and join the stripped halves with a space. -/
def starJoin (name : Str) : Str :=
  if pyIn (mkStr ("*")) name then
    let front := name.takeWhile (fun c => c != '*')
    let back := (name.dropWhile (fun c => c != '*')).drop 1
    pyStrip front ++ [' '] ++ pyStrip back
  else name

/-- Phase 3 of `_clean_merchant_name` (smart title case fallback). -/
def clean_phase3 (original name0 : Str) : Str :=
  let name := pyReSub patCamel false [.grp 1, .lit (mkStr (" ")), .grp 2] name0
  let words := pySplitWs name
  let cleanedWords := words.map (fun w =>
    if acronymList.any (fun a => a == pyUpper w) then pyUpper w
    else if 2 < w.length && pyIsUpper w then pyTitle w
    else w)
  let name := pyJoin [' '] cleanedWords
  if name.length < 3 then original else pyStrip name

/-- The tail of `_clean_merchant_name` after the payment-processor loop:
the remaining phase-1 pattern substitutions, the optional de-compression of
long all-caps names, the guarded language-model phase, and phase 3. -/
def clean_merchant_name_post (llm : LLM) (original name0 : Str) : Str :=
  let name := pyReSub patWeb true rEmpty name0
  let name := pyReSub patStoreHash false rEmpty name
  let name := pyReSub patTrailCaps false rEmpty name
  let name := pyReSub patPhoneEnd false rEmpty name
  let name := pyReSub patPercent false rEmpty name
  let name := pyReSub patZip false rEmpty name
  let name := pyReSub patCitySt false rEmpty name
  let name := pyReSub patStCode false rEmpty name
  let name := pyReSub patTstPre true rEmpty name
  let name := pyReSub patTrailCode1 false rEmpty name
  let name := pyReSub patTrailCode2 false rEmpty name
  let name := pyReSub patOil true rEmpty name
  let name := starJoin name
  let name := pyReSub patHelp true rEmpty name
  let name := pyReSub patHwy true rEmpty name
  let name := pyReSub patTrailHyph false rEmpty name
  let name := pyReSub patLeadHyph false rEmpty name
  let name := pyReSub patMidCode false rEmpty name
  let name := pyReSub patTrailAZ12 false rEmpty name
  let name := pyStrip (pyReSub patWs false (rLit (" ")) name)
  let name := pyReSub patTrailNum false rEmpty name
  let name :=
    if 15 < name.length && pyIsUpper name && !(pyIn (mkStr (" ")) (name.take 10)) then
      let n1 := pyReSub patAND false [.grp 1, .lit (mkStr (" AND ")), .grp 2] name
      pyReSub patCamel false [.grp 1, .lit (mkStr (" ")), .grp 2] n1
    else name
  if llm.available && 3 < name.length then
    let cleaned := llm.clean name none none
    if !cleaned.isEmpty && cleaned != name && 3 ≤ cleaned.length then cleaned
    else clean_phase3 original name
  else clean_phase3 original name

/-- Embedding of `HybridPDFParser._clean_merchant_name`. -/
def clean_merchant_name (llm : LLM) (name0 : Str) : Str :=
  if name0.isEmpty || name0.length < 3 then name0
  else
    let original := name0
    if (pyReMatch patATM false name0).isSome then mkStr ("ATM Withdrawal")
    else
      let name := pyReSub patXX false rEmpty name0
      let name := pyReSub patNamePre true rEmpty name
      let name := pyReSub patPay true rEmpty name
      let name := pyReSub patLeadSpecial false rEmpty name
      let name := pyReSub patTxnType true rEmpty name
      let name := pyReSub patRecurMid true (rLit (" ")) name
      let name := pyReSub patLeadDigits false rEmpty name
      let name := pyReSub patStoreNum false [.grp 1] name
      let name := pyReSub patTrail12 false rEmpty name
      let name := pyReSub patPhone1 false rEmpty name
      let name := pyReSub patPhone2 false rEmpty name
      let name := pyReSub patPhone3 false rEmpty name
      let name := pyReSub patRefCode false rEmpty name
      let name := pyReSub patHex false rEmpty name
      let name := pyReSub patPayRef false rEmpty name
      if (pyReMatch ppSQSP true name).isSome then mkStr ("Squarespace")
      else if (pyReMatch ppCashApp true name).isSome then mkStr ("Cash App")
      else if (pyReMatch ppBP true name).isSome then mkStr ("BP")
      else
        let name :=
          if (pyReMatch ppSQ true name).isSome then
            match pyReSearch ppSQext true name with
            | some t =>
              match capLookup t.2.2 1 with
              | some ab => pyStrip (pySlice name ab.1 ab.2)
              | none => pyStrip (pyReSub ppSQ true rEmpty name)
            | none => pyStrip (pyReSub ppSQ true rEmpty name)
          else if (pyReMatch ppWL true name).isSome then
            pyStrip (pyReSub ppWLstrip true rEmpty name)
          else name
        clean_merchant_name_post llm original name

/-- Embedding of `HybridPDFParser._normalize_llm_output`. -/
def normalize_llm_output (name0 : Str) : Str :=
  if name0.isEmpty then name0
  else
    let name := pyReSub pnLoc1 true rEmpty name0
    let name := pyReSub pnLoc2 true rEmpty name
    let name := pyReSub pnLoc3 true rEmpty name
    let name := pyReSub pnYes true rEmpty name
    let name := pyReSub pnThe true rEmpty name
    let name := pyReSub pnFun1 true rEmpty name
    let name := pyReSub pnFun2 true rEmpty name
    let name := pyReSub pnDetails true rEmpty name
    let name := pyStrip name
    let name := pyReSub pnEnds false rEmpty name
    let name :=
      if pyIsUpper name && 3 < name.length then
        if name.length ≤ 4 && pyIsAlpha name then name else pyTitle name
      else name
    let name := if pyStarts (mkStr ("THE ")) (pyUpper name) then name.drop 4 else name
    let name :=
      if !(pyIn (mkStr (" ")) name) && (name.drop 1).any isUpperC then
        pyReSub patCamel false [.grp 1, .lit (mkStr (" ")), .grp 2] name
      else name
    let name := extraWordsList.foldl (fun n w =>
      if pyEnds ([' '] ++ w) n then pyStrip (n.take (n.length - w.length - 1)) else n) name
    pyStrip name

/-- Embedding of `HybridPDFParser._clean_merchant_name_with_context`: the
result together with the updated merchant cache. -/
def clean_with_context (llm : LLM) (cache : Cache) (name : Str)
    (amount : Option ℚ) (date : Option Str) : Str × Cache :=
  if name.isEmpty || name.length < 3 then (name, cache)
  else
    let original := name
    let cacheKey := pyStrip (pyUpper name)
    match cacheGet cache cacheKey with
    | some v => (v, cache)
    | none =>
      let name1 := clean_merchant_name llm name
      let tail : Str × Cache :=
        if name1 != original then (name1, cacheSet cache cacheKey name1) else (name1, cache)
      if llm.available && 3 < name1.length then
        let cc := llm.clean name1 amount date
        if !cc.isEmpty && cc != name1 && 3 ≤ cc.length then
          let cc2 := normalize_llm_output cc
          if 3 ≤ cc2.length then (cc2, cacheSet cache cacheKey cc2) else tail
        else tail
      else tail

/-- Pattern `^(\d{1,2}/\d{1,2}/\d{4})` (`date_pattern_long`). -/
def patDateLong : RE :=
  rcat [.bol, .group 1 (rcat [rbetween rdig 1 2, .chr '/', rbetween rdig 1 2, .chr '/',
    rrep rdig 4])]

/-- Pattern `^(\d{1,2}/\d{1,2}/\d{2})` (`date_pattern_short`). -/
def patDateShort : RE :=
  rcat [.bol, .group 1 (rcat [rbetween rdig 1 2, .chr '/', rbetween rdig 1 2, .chr '/',
    rrep rdig 2])]

/-- Pattern `^(\d{1,2}-\d{1,2})\s` (`date_pattern_dash`). -/
def patDateDash : RE :=
  rcat [.bol, .group 1 (rcat [rbetween rdig 1 2, .chr '-', rbetween rdig 1 2]), rsp]

/-- Pattern `^(\d{17,})\s+` (reference numbers). -/
def patRef17 : RE := rcat [.bol, .group 1 (ratLeast rdig 17), rplus rsp]

/-- Pattern `\$?([0-9,]+\.\d{2})` (amounts, with capture). -/
def patAmtG : RE :=
  rcat [ropt (.chr '$'), .group 1 (rcat [rplus (rcls [.range '0' '9', .ch ',']), .chr '.',
    rrep rdig 2])]

/-- Pattern `\$?[0-9,]+\.\d{2}` (amounts, no capture). -/
def patAmtNoG : RE :=
  rcat [ropt (.chr '$'), rplus (rcls [.range '0' '9', .ch ',']), .chr '.', rrep rdig 2]

/-- Pattern `\d{17,}` (long digit strings). -/
def patDig17 : RE := ratLeast rdig 17

/-- Pattern `^\d{1,2}:\d{2}$` (times). -/
def patTime : RE := rcat [.bol, rbetween rdig 1 2, .chr ':', rrep rdig 2, .eol]

/-- Pattern `\s+\d{1,2}/\d{1,2}/\d{2,4}$` (partial date at the end of a description). -/
def patPartialDateEnd : RE :=
  rcat [rplus rsp, rbetween rdig 1 2, .chr '/', rbetween rdig 1 2, .chr '/',
    rbetween rdig 2 4, .eol]

/-- Pattern `^\d{1,2}/\d{1,2}/\d{4}` (third-line check, unanchored at the end). -/
def patDateLongNoG : RE :=
  rcat [.bol, rbetween rdig 1 2, .chr '/', rbetween rdig 1 2, .chr '/', rrep rdig 4]

/-- Pattern of the `parse_transactions` line filter: one or two digits, a
slash or dash character class, one or two digits, anchored at the start. -/
def patLineDate : RE :=
  rcat [.bol, rbetween rdig 1 2, rcls [.ch '/', .ch '-'], rbetween rdig 1 2]

/-- Pattern `^\d{1,2}/\d{1,2}/\d{4}$` (`validate_transactions` date check). -/
def patValidDate : RE :=
  rcat [.bol, rbetween rdig 1 2, .chr '/', rbetween rdig 1 2, .chr '/', rrep rdig 4, .eol]

/-- The `corrections` table of `_fix_ocr_date_errors`. -/
def ocr_month_corrections (m : Nat) : Option Nat :=
  if m == 42 then some 12
  else if m == 41 then some 11
  else if m == 40 then some 10
  else if m == 14 then some 11
  else if m == 13 then some 11
  else none

/-- Embedding of `HybridPDFParser._fix_ocr_date_errors` (the local Python
variables `parts`, `m` and `second` are inlined). -/
def fix_ocr_date_errors (dateStr : Str) : Str :=
  if dateStr.isEmpty || !(pyIn (mkStr ("/")) dateStr) then dateStr
  else if (pySplitOn '/' dateStr).length < 2 then dateStr
  else
    match pyInt ((pySplitOn '/' dateStr).getD 0 []) with
    | none => dateStr
    | some month =>
      if 12 < month then
        match ocr_month_corrections month.toNat with
        | some corrected =>
          pyJoin (mkStr ("/"))
            ((pySplitOn '/' dateStr).set 0
              (zfill (if 10 ≤ month.toNat then 2 else 1) (natToStr corrected)))
        | none =>
          if 1 < month.toNat / 10 then
            if month.toNat % 10 ≤ 2 then
              pyJoin (mkStr ("/"))
                ((pySplitOn '/' dateStr).set 0 (natToStr (10 + month.toNat % 10)))
            else dateStr
          else dateStr
      else dateStr

/-- Result of `validate_transactions`.  The human-readable `issues` strings
(percent-formatted ratios) are not modelled; every claim treated here reads
only `valid`, `score` and `transaction_count`. -/
structure ValidationResult where
  valid : Bool
  score : Int
  transaction_count : Nat
  method : Str
  deriving DecidableEq

/-- The `Transaction Date` check of `validate_transactions`. -/
def hasValidDate (t : Txn) : Bool := (pyReMatch patValidDate false t.transactionDate).isSome

/-- The amount check of `validate_transactions`:
`any(k in t and t[k] and t[k] > 0 for k in ['Amount', 'Credits', 'Debits'])`
— some of the three keys is present, truthy (in particular not `None`) and
positive. -/
def hasValidAmount (t : Txn) : Bool :=
  (match t.amount with
   | some v => decide (0 < v)
   | none => false) ||
  (match t.credits with
   | some (some v) => decide (0 < v)
   | _ => false) ||
  (match t.debits with
   | some (some v) => decide (0 < v)
   | _ => false)

/-- The description check of `validate_transactions`. -/
def hasValidDesc (t : Txn) : Bool := 3 ≤ t.place.length && t.place.any isAlphaC

/-- Embedding of `HybridPDFParser.validate_transactions`. -/
def validate_transactions (transactions : List Txn) (method : Str) : ValidationResult :=
  if transactions.isEmpty then
    { valid := false, score := 0, transaction_count := 0, method := method }
  else
    let n := transactions.length
    let validDates := transactions.countP (fun t => hasValidDate t)
    let score : Int := 100
    let score := if mkRat validDates n < mkRat 9 10 then score - 20 else score
    let withAmounts := transactions.countP (fun t => hasValidAmount t)
    let score := if mkRat withAmounts n < mkRat 9 10 then score - 30 else score
    let validDescs := transactions.countP (fun t => hasValidDesc t)
    let score := if mkRat validDescs n < mkRat 8 10 then score - 30 else score
    let score := if n < 3 then score - 20 else score
    let uniq := (transactions.map (fun t => t.place)).dedup.length
    let score := if mkRat uniq n < mkRat 5 10 then score - 10 else score
    { valid := 50 ≤ score, score := max 0 score, transaction_count := n, method := method }

/-- The garbage description fragments rejected by `_build_transaction`. -/
def garbagePatterns : List Str :=
  [mkStr ("DATE AMOUNT"), mkStr ("DESCRIPTION DEBITS CREDITS"), mkStr ("POST DATE"),
   mkStr ("TRANS DATE"), mkStr ("REFERENCE"), mkStr ("PAGE"), mkStr ("ACCOUNT STATEMENTS"),
   mkStr ("STATEMENT ENDING"), mkStr ("CUSTOMER NUMBER"), mkStr ("CHECKING ACCOUNT"),
   mkStr ("SAVINGS ACCOUNT"), mkStr ("DAILY BALANCE"), mkStr ("DATE AMOUNT DATE AMOUNT"),
   mkStr ("BEGINNING BALANCE"), mkStr ("ENDING BALANCE")]

/-- Embedding of `HybridPDFParser._build_transaction`; `none` is the
rejected (`return None`) case, and the merchant cache is threaded through
the cleaning call. -/
def build_transaction (llm : LLM) (cache : Cache) (date : Str) (description0 : Str)
    (amounts : List ℚ) : Option Txn × Cache :=
  let description := collapseWs description0
  let descUpper := pyUpper description
  if garbagePatterns.any (fun p => pyIn p descUpper) then (none, cache)
  else
    let words := pySplitWs description
    if words.length == 1 && description.length < 4 then (none, cache)
    else if description.length < 3 || !(description.any isAlphaC) then (none, cache)
    else
      let originalDescription := description
      let amount := amounts.head?
      let (place, cache') := clean_with_context llm cache description amount (some date)
      let trans : Txn :=
        { transactionDate := date, place := place, placeOriginal := originalDescription }
      let trans :=
        if amounts.length == 1 then { trans with amount := amounts.head? }
        else if amounts.length == 2 then
          { trans with amount := amounts.head?, balance := amounts[1]? }
        else if 3 ≤ amounts.length then
          { trans with
            debits := match amounts[0]? with
              | some a => some (if 0 < a then some a else none)
              | none => none,
            credits := match amounts[1]? with
              | some a => some (if 0 < a then some a else none)
              | none => none,
            balance := amounts[2]? }
        else trans
      (some trans, cache')

/-- The slice of the input captured by group `n` of a match. -/
def capSlice (s : Str) (caps : Caps) (n : Nat) : Str :=
  match capLookup caps n with
  | some ab => pySlice s ab.1 ab.2
  | none => []

/-- Python `str(i)` for an integer. -/
def intToStr (i : Int) : Str := if i < 0 then '-' :: natToStr i.natAbs else natToStr i.toNat

/-- Python `float(clean)` on the comma-stripped captures of the amount
pattern (shape `[0-9]*\.\d{2}`): the exact decimal value, of which the
float the program stores is `flt` (see the header; the decimal determines
the double, and the one comparison performed on amounts applies `flt` to
both sides).  Other shapes give `none`, the `ValueError` path of the
source. -/
def parseMoney (s : Str) : Option ℚ :=
  match pySplitOn '.' s with
  | [ip, fp] =>
    if ip.all isDigitC && fp.all isDigitC && !fp.isEmpty then
      some (mkRat ((digitsVal ip) * 10 ^ fp.length + digitsVal fp) (10 ^ fp.length))
    else none
  | _ => none

/-- The amount scan of `parse_transaction_block`: group 1 of each amount
match, commas removed, parsed as a float. -/
def extractAmounts (rest : Str) : List ℚ :=
  (pyFindIter patAmtG false rest).filterMap (fun m =>
    parseMoney ((capSlice rest m.2.2 1).filter (fun c => c != ',')))

/-- A line starts with one of the three date patterns (the `has_date` checks). -/
def hasDateStart (s : Str) : Bool :=
  (pyReMatch patDateLong false s).isSome || (pyReMatch patDateShort false s).isSome ||
    (pyReMatch patDateDash false s).isSome

/-- The amount-removal splice of `parse_transaction_block`: rebuild the
description skipping every amount match. -/
def removeAmountMatches (description : Str) : Str :=
  let ms := pyFindIter patAmtNoG false description
  if ms.isEmpty then description
  else
    let folded := ms.foldl
      (fun (acc : Str × Nat) m => (acc.1 ++ pySlice description acc.2 m.1, m.2.1)) ([], 0)
    folded.1 ++ description.drop folded.2

/-- The date-first branch of `parse_transaction_block` (a date pattern
matched at the start of the current line, whose match ended at `dateEnd`). -/
def parse_block_with_date (llm : LLM) (cache : Cache) (lines : List Str) (startIdx : Nat)
    (transDate : Str) (dateEnd : Nat) (currentLine : Str) : Option Txn × Nat × Cache :=
  let rest := pyStrip (currentLine.drop dateEnd)
  let rest :=
    match pyReMatch patDateShort false rest with
    | some m => pyStrip (rest.drop m.1)
    | none =>
      match pyReMatch patDateLong false rest with
      | some m => pyStrip (rest.drop m.1)
      | none =>
        match pyReMatch patDateDash false rest with
        | some m => pyStrip (rest.drop m.1)
        | none => rest
  let rest :=
    match pyReMatch patRef17 false rest with
    | some m => pyStrip (rest.drop m.1)
    | none => rest
  let amounts := extractAmounts rest
  let description := rest
  let description := removeAmountMatches description
  let description := pyReSub patDig17 false rEmpty description
  let description := pyStrip (collapseWs description)
  let description :=
    if description.isEmpty || description.length < 3 || !(description.any isAlphaC) then
      if 0 < startIdx then
        let prevLine := pyStrip (lines.getD (startIdx - 1) [])
        let isTime := (pyReMatch patTime false prevLine).isSome
        if !prevLine.isEmpty && !hasDateStart prevLine && !isTime &&
            prevLine.any isAlphaC && 5 < prevLine.length then prevLine
        else description
      else description
    else description
  let stepped :=
    if startIdx + 1 < lines.length then
      let nextLine := pyStrip (lines.getD (startIdx + 1) [])
      if !nextLine.isEmpty && !hasDateStart nextLine then
        if nextLine.any isAlphaC && !(pyIn (mkStr ("$")) nextLine) then
          (description ++ [' '] ++ nextLine, 2)
        else (description, 1)
      else (description, 1)
    else (description, 1)
  if stepped.1.isEmpty || amounts.isEmpty then (none, stepped.2, cache)
  else
    let bt := build_transaction llm cache transDate stepped.1 amounts
    (bt.1, stepped.2, bt.2)

/-- The description-first branch of `parse_transaction_block` (no date at
the start of the current line; the date and amounts are expected on the
next line). -/
def parse_block_desc_first (llm : LLM) (cache : Cache) (lines : List Str) (startIdx : Nat)
    (currentLine : Str) : Option Txn × Nat × Cache :=
  if !(currentLine.any isAlphaC) then (none, 1, cache)
  else
    let description := pyReSub patPartialDateEnd false rEmpty currentLine
    if lines.length ≤ startIdx + 1 then (none, 1, cache)
    else
      let nextLine := pyStrip (lines.getD (startIdx + 1) [])
      match pyReMatch patDateLong false nextLine with
      | none => (none, 1, cache)
      | some m =>
        let transDate := capSlice nextLine m.2 1
        let rest := pyStrip (nextLine.drop m.1)
        let amounts := extractAmounts rest
        if amounts.isEmpty then (none, 2, cache)
        else
          let stepped :=
            if startIdx + 2 < lines.length then
              let thirdLine := pyStrip (lines.getD (startIdx + 2) [])
              if !thirdLine.isEmpty && !(pyReMatch patDateLongNoG false thirdLine).isSome then
                if thirdLine.any isAlphaC && !(pyIn (mkStr ("$")) thirdLine) then
                  (description ++ [' '] ++ thirdLine, 3)
                else (description, 2)
              else (description, 2)
            else (description, 2)
          let bt := build_transaction llm cache transDate stepped.1 amounts
          (bt.1, stepped.2, bt.2)

/-- Embedding of `HybridPDFParser.parse_transaction_block`; returns
(transaction or `none`, lines consumed) and threads the merchant cache.
The `statement_year is None` default (inferred from the wall clock by the
caller-side code) is not modelled: the year is a required argument here. -/
def parse_transaction_block (llm : LLM) (cache : Cache) (lines : List Str) (startIdx : Nat)
    (statementYear : Int) : Option Txn × Nat × Cache :=
  if lines.length ≤ startIdx then (none, 0, cache)
  else
    let currentLine := pyStrip (lines.getD startIdx [])
    if currentLine.isEmpty then (none, 1, cache)
    else
      let attempt : Option (Str × Nat) :=
        match pyReMatch patDateLong false currentLine with
        | some m => some (capSlice currentLine m.2 1, m.1)
        | none =>
          match pyReMatch patDateShort false currentLine with
          | some m =>
            let dp := pySplitOn '/' (capSlice currentLine m.2 1)
            some (dp.getD 0 [] ++ mkStr ("/") ++ dp.getD 1 [] ++ mkStr ("/20") ++
              dp.getD 2 [], m.1)
          | none =>
            match pyReMatch patDateDash false currentLine with
            | some m =>
              let md := (capSlice currentLine m.2 1).map (fun c => if c == '-' then '/' else c)
              some (md ++ mkStr ("/") ++ intToStr statementYear, m.1)
            | none => none
      match attempt with
      | some td =>
        parse_block_with_date llm cache lines startIdx (fix_ocr_date_errors td.1) td.2 currentLine
      | none => parse_block_desc_first llm cache lines startIdx currentLine

/-- Section-start markers of `parse_transactions`. -/
def sectionStartMarkers : List Str :=
  [mkStr ("ACCOUNT ACTIVITY"), mkStr ("TRANSACTION HISTORY"), mkStr ("TRANSACTIONS"),
   mkStr ("POST DATE"), mkStr ("TRANS DATE"), mkStr ("POSTING"),
   mkStr ("DESCRIPTION OF TRANSACTION")]

/-- Section-end markers of `parse_transactions`. -/
def sectionEndMarkers : List Str :=
  [mkStr ("TOTAL DEBITS"), mkStr ("TOTAL CREDITS"), mkStr ("INTEREST SUMMARY"),
   mkStr ("FEES SUMMARY"), mkStr ("PAGE 2"), mkStr ("PAGE 3"), mkStr ("PAGE 4"),
   mkStr ("STATEMENT CLOSING"), mkStr ("IMPORTANT INFORMATION"), mkStr ("OVERDRAFT"),
   mkStr ("DIRECT DEPOSIT"), mkStr ("INTEREST RATE"), mkStr ("DAILY BALANCES"),
   mkStr ("DAILY BALANCE"), mkStr ("ENDING BALANCE")]

/-- Summary-line markers of `parse_transactions`. -/
def summaryMarkers : List Str :=
  [mkStr ("BEGINNING BALANCE"), mkStr ("ENDING BALANCE"), mkStr ("CREDIT(S) THIS PERIOD"),
   mkStr ("DEBIT(S) THIS PERIOD"), mkStr ("INTEREST PAID"), mkStr ("ANNUAL PERCENTAGE"),
   mkStr ("INTEREST DAYS"), mkStr ("INTEREST EARNED FROM")]

/-- Header-line markers of `parse_transactions`. -/
def headerMarkers : List Str :=
  [mkStr ("POST DATE DESCRIPTION"), mkStr ("DATE DESCRIPTION DEBITS"),
   mkStr ("TRANS DATE"), mkStr ("REFERENCE")]

/-- The line loop of `parse_transactions`, structural on a fuel that counts
the remaining loop iterations (each iteration advances `i` by at least one,
so `lines.length + 1` iterations always suffice). -/
def parse_transactions_go (llm : LLM) (year : Int) (lines : List Str) :
    Nat → Nat → Bool → Cache → List Txn × Cache
  | 0, _, _, cache => ([], cache)
  | fuel + 1, i, inSec, cache =>
    if i < lines.length then
      let line := pyStrip (lines.getD i [])
      let lineU := pyUpper line
      if sectionStartMarkers.any (fun m => pyIn m lineU) then
        parse_transactions_go llm year lines fuel (i + 1) true cache
      else if inSec && sectionEndMarkers.any (fun m => pyIn m lineU) then
        parse_transactions_go llm year lines fuel (i + 1) false cache
      else if summaryMarkers.any (fun m => pyIn m lineU) then
        parse_transactions_go llm year lines fuel (i + 1) inSec cache
      else if headerMarkers.any (fun m => pyIn m lineU) then
        parse_transactions_go llm year lines fuel (i + 1) inSec cache
      else if !inSec && !(pyReMatch patLineDate false line).isSome then
        parse_transactions_go llm year lines fuel (i + 1) inSec cache
      else
        let blk := parse_transaction_block llm cache lines i year
        let step := if 0 < blk.2.1 then blk.2.1 else 1
        let rec1 := parse_transactions_go llm year lines fuel (i + step) inSec blk.2.2
        match blk.1 with
        | some t => if !t.place.isEmpty then (t :: rec1.1, rec1.2) else rec1
        | none => rec1
    else ([], cache)

/-- Embedding of `HybridPDFParser.parse_transactions` with an explicit
statement year (the Python default infers it from the text and the wall
clock; every claim treated here supplies the year). -/
def parse_transactions (llm : LLM) (cache : Cache) (text : Str) (statementYear : Int) :
    List Txn × Cache :=
  let lines := pySplitOn '\n' text
  parse_transactions_go llm statementYear lines (lines.length + 1) 0 false cache

/-- The artifact substrings penalised by `_select_best_description`. -/
def sbdArtifacts : List Str :=
  [mkStr ("PURCHASE"), mkStr ("RECUR"), mkStr ("WL*"), mkStr ("WL "), mkStr ("SQ*"),
   mkStr ("TST*"), mkStr ("Payment."), mkStr ("Gino "), mkStr ("Jaison "), mkStr ("XX"),
   mkStr ("POS "), mkStr ("ACH ")]

/-- The inner `score_description` heuristic of `_select_best_description`.
The `original` argument is accepted (as in the source) but never read. -/
def score_description (place : Str) (original : Str) : Int :=
  let score : Int := 100
  let score := sbdArtifacts.foldl
    (fun sc a => if pyIn a place || pyIn a (pyUpper place) then sc - 30 else sc) score
  let score :=
    if 40 < place.length then score - 20
    else if 25 < place.length then score - 10
    else score
  let wordCount := (pySplitWs place).length
  let score :=
    if 5 < wordCount then score - 15
    else if 4 < wordCount then score - 5
    else score
  let score := if !place.isEmpty && isUpperC (place.headD ' ') then score + 5 else score
  let score :=
    if !place.isEmpty && (isLowerC (place.headD ' ') || isDigitC (place.headD ' ')) then
      score - 10
    else score
  let score :=
    if !place.isEmpty && [('=' : Char), '-', '>', '<'].contains (place.headD ' ') then
      score - 20
    else score
  score

/-- Embedding of `HybridPDFParser._select_best_description`. -/
def select_best_description (placeA placeB origA origB : Str) : Str :=
  let scoreA := score_description placeA origA
  let scoreB := score_description placeB origB
  if scoreB ≤ scoreA then placeA else placeB

/-- The amount lookup of `cross_reference_transactions`:
`t.get('Amount', t.get('Debits', t.get('Credits', 0)))`.  A present key
returns its stored value even when that value is `None` (`dict.get` only
falls through on an absent key), so the chain returns `none` exactly when
the first present key among `Amount`, `Debits`, `Credits` holds `None` —
the case in which the source's `float(...)` raises `TypeError`. -/
def xrefAmount (t : Txn) : Option ℚ :=
  match t.amount with
  | some v => some v
  | none =>
    match t.debits with
    | some v => v
    | none =>
      match t.credits with
      | some v => v
      | none => some 0

/-- The match criterion of `cross_reference_transactions`: identical date
string and `abs(float(amount_a) - float(amount_b)) < 0.02` in binary64
arithmetic.  On the `None`-chain case (where the source raises) this total
version is `false`; it is only consulted, through `pass1t`, on runs the
exception-aware embedding certifies as returning (`pass1_okEq`), where the
case cannot have been reached. -/
def xrefMatches (a b : Txn) : Bool :=
  a.transactionDate == b.transactionDate &&
    (match xrefAmount a, xrefAmount b with
     | some qa, some qb => fltAbsLt002 qa qb
     | _, _ => false)

/-- The inner scan of pass 1, exception-free restriction (proof
apparatus): first index of `transactions_b` that is not yet matched and
matches `a`; `idx` is the index of the list head.  `find_go_okEq` shows it
agrees with the faithful scan `find_match_go` on every run of the latter
that does not raise. -/
def scanGo (a : Txn) (matched : List Nat) : Nat → List Txn → Option Nat
  | _, [] => none
  | idx, b :: bs =>
    if matched.contains idx then scanGo a matched (idx + 1) bs
    else if xrefMatches a b then some idx
    else scanGo a matched (idx + 1) bs

/-- Exception-free restriction of `find_match_b` (proof apparatus). -/
def scanB (a : Txn) (matched : List Nat) (bl : List Txn) : Option Nat :=
  scanGo a matched 0 bl

/-- The inner scan of pass 1 of `cross_reference_transactions` (the
`for idx, trans_b in enumerate(transactions_b)` loop with its `break`):
first index of `transactions_b` that is not yet matched and matches
`trans_a`.  On an equal date the source evaluates
`float(amount_a) - float(amount_b)`; when either get-chain produced `None`
that raises `TypeError`, modelled as `.error ()`. -/
def find_match_go (a : Txn) (matched : List Nat) : Nat → List Txn → Except Unit (Option Nat)
  | _, [] => .ok none
  | idx, b :: bs =>
    if matched.contains idx then find_match_go a matched (idx + 1) bs
    else if a.transactionDate == b.transactionDate then
      match xrefAmount a, xrefAmount b with
      | some qa, some qb =>
        if fltAbsLt002 qa qb then .ok (some idx)
        else find_match_go a matched (idx + 1) bs
      | _, _ => .error ()
    else find_match_go a matched (idx + 1) bs

/-- The full inner scan from the head of `transactions_b`. -/
def find_match_b (a : Txn) (matched : List Nat) (bl : List Txn) : Except Unit (Option Nat) :=
  find_match_go a matched 0 bl

/-- The `_extraction_method` tag of a matched merge. -/
def matchedTag (ma mb : Str) : Str := ma ++ mkStr (" (matched with ") ++ mb ++ mkStr (")")

/-- The `_extraction_method` tag of an unmatched record. -/
def onlyTag (m : Str) : Str := m ++ mkStr (" only")

/-- The merge of a matched pair in pass 1 of `cross_reference_transactions`:
`trans_a` is copied, its `Place_Original` becomes the better-scoring of the
two originals, its `Place` the context-aware re-cleaning of that selected
original, and it is tagged as matched.  (The `.get('Place_Original', place)`
default for a missing key is not representable: the model always carries
the field, as every transaction built by `_build_transaction` does.) -/
def merge_record (llm : LLM) (cache : Cache) (ta tb : Txn) (ma mb : Str) : Txn × Cache :=
  let selectedOriginal :=
    select_best_description ta.placeOriginal tb.placeOriginal ta.placeOriginal tb.placeOriginal
  let amount := xrefAmount ta
  let date := ta.transactionDate
  let cc := clean_with_context llm cache selectedOriginal amount (some date)
  ({ ta with
      place := cc.1,
      placeOriginal := selectedOriginal,
      extractionMethod := some (matchedTag ma mb) }, cc.2)

/-- Pass 1 of `cross_reference_transactions`: walk `transactions_a`,
greedily consuming the first matching unmatched entry of `transactions_b`;
returns the merged records in order, the list of consumed B-indices (in
consumption order) and the threaded cache.  A `TypeError` raised by the
inner scan aborts the whole pass. -/
def pass1 (llm : LLM) (bl : List Txn) (ma mb : Str) :
    List Txn → List Nat → Cache → Except Unit (List Txn × List Nat × Cache)
  | [], matched, cache => .ok ([], matched, cache)
  | a :: arest, matched, cache =>
    match find_match_b a matched bl with
    | .error e => .error e
    | .ok (some j) =>
      let mr := merge_record llm cache a (bl.getD j default) ma mb
      match pass1 llm bl ma mb arest (matched ++ [j]) mr.2 with
      | .error e => .error e
      | .ok rec1 => .ok (mr.1 :: rec1.1, rec1.2)
    | .ok none =>
      match pass1 llm bl ma mb arest matched cache with
      | .error e => .error e
      | .ok rec1 => .ok ({ a with extractionMethod := some (onlyTag ma) } :: rec1.1, rec1.2)

/-- Exception-free restriction of `pass1` (proof apparatus); `pass1_okEq`
shows it agrees with `pass1` on every run that does not raise. -/
def pass1t (llm : LLM) (bl : List Txn) (ma mb : Str) :
    List Txn → List Nat → Cache → List Txn × List Nat × Cache
  | [], matched, cache => ([], matched, cache)
  | a :: arest, matched, cache =>
    match scanB a matched bl with
    | some j =>
      let mr := merge_record llm cache a (bl.getD j default) ma mb
      let rec1 := pass1t llm bl ma mb arest (matched ++ [j]) mr.2
      (mr.1 :: rec1.1, rec1.2)
    | none =>
      let rec1 := pass1t llm bl ma mb arest matched cache
      ({ a with extractionMethod := some (onlyTag ma) } :: rec1.1, rec1.2)

/-- The sort key comparison of `merged.sort(key=lambda x: x.get('Transaction
Date', ''))`: lexicographic string order on the date. -/
def dateLE (a b : Txn) : Bool := decide (a.transactionDate ≤ b.transactionDate)

/-- Insert `x` into a sorted list after every strictly smaller element and
before the first element not strictly smaller (so before every equal one:
the insertion point of a stable sort for an element arriving first). -/
def insortBy (le : α → α → Bool) (x : α) : List α → List α
  | [] => [x]
  | y :: ys => if le y x && !(le x y) then y :: insortBy le x ys else x :: y :: ys

/-- Stable insertion sort, structurally recursive so that it evaluates in
the kernel. -/
def isortBy (le : α → α → Bool) : List α → List α
  | [] => []
  | x :: xs => insortBy le x (isortBy le xs)

/-- The final sort of `cross_reference_transactions`: Python's `list.sort`
is a stable sort by the date key, and for a transitive total comparison a
stable sort computes one list — `sortByDate_eq_mergeSort` below identifies
this kernel-computable embedding with the library's stable `mergeSort`. -/
def sortByDate (l : List Txn) : List Txn := isortBy dateLE l

/-- Embedding of `HybridPDFParser.cross_reference_transactions`, threading
the merchant cache.  `.error ()` is the `TypeError` the source raises when
an inner comparison calls `float(None)`; on that path no list is
returned. -/
def cross_reference_transactions (llm : LLM) (ta tb : List Txn) (ma mb : Str)
    (cache : Cache) : Except Unit (List Txn × Cache) :=
  if ta.isEmpty && tb.isEmpty then .ok ([], cache)
  else if ta.isEmpty then .ok (tb, cache)
  else if tb.isEmpty then .ok (ta, cache)
  else
    match pass1 llm tb ma mb ta [] cache with
    | .error e => .error e
    | .ok p1 =>
      let p2 := (tb.enum.filter (fun p => !(p1.2.1.contains p.1))).map
        (fun p => { p.2 with extractionMethod := some (onlyTag mb) })
      .ok (sortByDate (p1.1 ++ p2), p1.2.2)

/-- The exception-free scan agrees with the faithful scan on every run of
the latter that returns. -/
theorem find_go_okEq (a : Txn) (m : List Nat) :
    ∀ (bs : List Txn) (idx : Nat) (v : Option Nat),
      find_match_go a m idx bs = .ok v → scanGo a m idx bs = v := by
  intro bs
  induction bs with
  | nil =>
    intro idx v h
    exact (Except.ok.inj h) ▸ rfl
  | cons b brest ih =>
    intro idx v h
    unfold find_match_go at h
    unfold scanGo
    by_cases hc : m.contains idx = true
    · rw [if_pos hc] at h ⊢
      exact ih (idx + 1) v h
    · rw [if_neg hc] at h ⊢
      by_cases hd : (a.transactionDate == b.transactionDate) = true
      · rw [if_pos hd] at h
        cases hqa : xrefAmount a with
        | none => simp [hqa] at h
        | some qa =>
          cases hqb : xrefAmount b with
          | none => simp [hqa, hqb] at h
          | some qb =>
            simp only [hqa, hqb] at h
            unfold xrefMatches
            simp only [hqa, hqb, hd, Bool.true_and]
            by_cases hf : fltAbsLt002 qa qb = true
            · rw [if_pos hf] at h
              rw [if_pos hf]
              exact Except.ok.inj h
            · rw [if_neg hf] at h
              rw [if_neg hf]
              exact ih (idx + 1) v h
      · rw [if_neg hd] at h
        have hxm : xrefMatches a b = false := by
          unfold xrefMatches
          rw [Bool.and_eq_false_iff]
          left
          simpa using hd
        rw [hxm]
        rw [if_neg (by simp)]
        exact ih (idx + 1) v h

/-- The exception-free pass 1 agrees with the faithful pass 1 on every run
of the latter that returns. -/
theorem pass1_okEq (llm : LLM) (bl : List Txn) (ma mb : Str) :
    ∀ (xs : List Txn) (m : List Nat) (c : Cache) (r : List Txn × List Nat × Cache),
      pass1 llm bl ma mb xs m c = .ok r → pass1t llm bl ma mb xs m c = r := by
  intro xs
  induction xs with
  | nil =>
    intro m c r h
    exact (Except.ok.inj h) ▸ rfl
  | cons a arest ih =>
    intro m c r h
    unfold pass1 at h
    unfold pass1t
    cases hf : find_match_b a m bl with
    | error e => rw [hf] at h; exact Except.noConfusion h
    | ok v =>
      have hs : scanB a m bl = v := find_go_okEq a m bl 0 v hf
      simp only [hf] at h
      rw [hs]
      cases v with
      | some j =>
        cases hr : pass1 llm bl ma mb arest (m ++ [j])
            (merge_record llm c a (bl.getD j default) ma mb).2 with
        | error e => simp only [hr] at h; exact Except.noConfusion h
        | ok rec1 =>
          simp only [hr] at h
          simp only [ih _ _ _ hr]
          exact Except.ok.inj h
      | none =>
        cases hr : pass1 llm bl ma mb arest m c with
        | error e => simp only [hr] at h; exact Except.noConfusion h
        | ok rec1 =>
          simp only [hr] at h
          simp only [ih _ _ _ hr]
          exact Except.ok.inj h

/-- Structure of a returning `cross_reference_transactions` run on
non-empty inputs: the output is the sorted concatenation of the pass-1
records (which the exception-free `pass1t` then computes) and the
`method_b only` copies of the unmatched B-entries. -/
theorem cross_ok_nonempty (llm : LLM) (ta tb : List Txn) (ma mb : Str) (cache : Cache)
    (out : List Txn) (cache' : Cache) (ha : ta ≠ []) (hb : tb ≠ [])
    (hok : cross_reference_transactions llm ta tb ma mb cache = .ok (out, cache')) :
    out = sortByDate ((pass1t llm tb ma mb ta [] cache).1 ++
      (tb.enum.filter (fun p => !((pass1t llm tb ma mb ta [] cache).2.1.contains p.1))).map
        (fun p => { p.2 with extractionMethod := some (onlyTag mb) })) ∧
    cache' = (pass1t llm tb ma mb ta [] cache).2.2 := by
  have hae : ta.isEmpty = false := by
    cases ta
    · exact absurd rfl ha
    · rfl
  have hbe : tb.isEmpty = false := by
    cases tb
    · exact absurd rfl hb
    · rfl
  unfold cross_reference_transactions at hok
  rw [hae, hbe] at hok
  simp only [Bool.false_and, Bool.false_eq_true, if_false] at hok
  cases hp : pass1 llm tb ma mb ta [] cache with
  | error e => rw [hp] at hok; exact Except.noConfusion hok
  | ok p1 =>
    rw [hp] at hok
    have hpt : pass1t llm tb ma mb ta [] cache = p1 := pass1_okEq llm tb ma mb ta [] cache p1 hp
    have hpair := Except.ok.inj hok
    rw [hpt]
    exact ⟨(congrArg Prod.fst hpair).symm, (congrArg Prod.snd hpair).symm⟩

/-- The amount lookup of `classify_transactions`:
`t.get('Amount', t.get('Credits', t.get('Debits', 0)))` (credits before
debits, unlike `cross_reference_transactions`); a present `Credits` or
`Debits` key holding `None` yields `none` — the value is only ever handed
to the model prompt, so no exception arises here. -/
def classifyAmount (t : Txn) : Option ℚ :=
  match t.amount with
  | some v => some v
  | none =>
    match t.credits with
    | some v => v
    | none =>
      match t.debits with
      | some v => v
      | none => some 0

/-- The payment-app flagging of `classify_transactions`: when some payment
app name occurs in the uppercased cleaned or original description, the
transaction dictionary is marked for manual review in place. -/
def markPaymentApp (paymentApps : List Str) (t : Txn) : Txn :=
  if paymentApps.any (fun app =>
      pyIn app (pyUpper t.place) || pyIn app (pyUpper t.placeOriginal)) then
    { t with manualReview := true }
  else t

/-- Embedding of `HybridPDFParser.classify_transactions`: returns
(income, expenses).  A bank-account transaction none of whose amount fields
is positive falls through every branch of the source and is appended to
neither list. -/
def classify_transactions (llm : LLM) (incomeKeywords paymentApps : List Str)
    (isBankAccount : Bool) : List Txn → List Txn × List Txn
  | [] => ([], [])
  | t :: ts =>
    let place := pyUpper t.place
    let placeOriginal := pyUpper t.placeOriginal
    let amount := classifyAmount t
    let isPaymentApp := paymentApps.any (fun app => pyIn app place || pyIn app placeOriginal)
    let t1 := markPaymentApp paymentApps t
    let rest := classify_transactions llm incomeKeywords paymentApps isBankAccount ts
    if isBankAccount then
      let hasCredits := match t1.credits with
        | some (some v) => decide (0 < v)
        | _ => false
      let hasDebits := match t1.debits with
        | some (some v) => decide (0 < v)
        | _ => false
      let hasAmount := match t1.amount with
        | some v => decide (0 < v)
        | none => false
      if hasCredits then (t1 :: rest.1, rest.2)
      else if hasDebits then (rest.1, t1 :: rest.2)
      else if hasAmount then
        let isIncomeKeyword := incomeKeywords.any (fun k => pyIn k placeOriginal)
        if isIncomeKeyword then (t1 :: rest.1, rest.2)
        else if llm.available && isPaymentApp then
          if llm.classify place amount == mkStr ("income") then (t1 :: rest.1, rest.2)
          else (rest.1, t1 :: rest.2)
        else (rest.1, t1 :: rest.2)
      else rest
    else (rest.1, t1 :: rest.2)

/-!
Claim theorems.
-/

/-- C5: for a credit-card statement (`is_bank_account = false`),
`classify_transactions` returns an empty income list and routes every input
transaction to expenses regardless of its fields, keywords or payment-app
flag; each output record is the input record with at most the
manual-review flag added. -/
theorem C5_credit_card_all_expenses (llm : LLM) (incomeKeywords paymentApps : List Str)
    (transactions : List Txn) :
    classify_transactions llm incomeKeywords paymentApps false transactions =
      ([], transactions.map (markPaymentApp paymentApps)) ∧
    ∀ t : Txn,
      (markPaymentApp paymentApps t).transactionDate = t.transactionDate ∧
      (markPaymentApp paymentApps t).place = t.place ∧
      (markPaymentApp paymentApps t).placeOriginal = t.placeOriginal ∧
      (markPaymentApp paymentApps t).amount = t.amount ∧
      (markPaymentApp paymentApps t).balance = t.balance ∧
      (markPaymentApp paymentApps t).debits = t.debits ∧
      (markPaymentApp paymentApps t).credits = t.credits ∧
      (markPaymentApp paymentApps t).extractionMethod = t.extractionMethod := by
  constructor
  · induction transactions with
    | nil => rfl
    | cons t ts ih => simp [classify_transactions, ih]
  · intro t
    unfold markPaymentApp
    split <;> simp

/-- The output C4 predicts for `_fix_ocr_date_errors`, written from the
claim's words (reading "tens digit" as the decimal tens digit of the
month), to be compared with the source-derived `fix_ocr_date_errors`. -/
def c4ClaimPredicted (s : Str) : Str :=
  if !(pyIn (mkStr ("/")) s) then s
  else
    match pyInt ((pySplitOn '/' s).getD 0 []) with
    | none => s
    | some month =>
      if month ≤ 12 then s
      else
        match ocr_month_corrections month.toNat with
        | some v => pyJoin (mkStr ("/")) ((pySplitOn '/' s).set 0 (natToStr v))
        | none =>
          if 1 < month.toNat / 10 % 10 ∧ month.toNat % 10 ≤ 2 then
            pyJoin (mkStr ("/"))
              ((pySplitOn '/' s).set 0 (natToStr (10 + month.toNat % 10)))
          else s

/-- C4, counterexample: on `"112/29/2025"` the code corrects the month to
`12` (since `112 // 10 = 11 > 1` and `112 % 10 = 2`), while the claim's
"tens digit" of 112 is 1, so the claim as stated predicts the input is
returned unchanged. -/
theorem C4_counterexample :
    fix_ocr_date_errors (mkStr ("112/29/2025")) = mkStr ("12/29/2025") ∧
    c4ClaimPredicted (mkStr ("112/29/2025")) = mkStr ("112/29/2025") ∧
    mkStr ("12/29/2025") ≠ mkStr ("112/29/2025") := by
  refine ⟨by decide, by decide, by decide⟩

/-- `pySplitOn` never returns an empty list. -/
theorem pySplitOn_ne_nil (sep : Char) (s : Str) : 1 ≤ (pySplitOn sep s).length := by
  induction s with
  | nil => simp [pySplitOn]
  | cons c t ih =>
    unfold pySplitOn
    split
    · simp
    · split <;> simp_all

/-- A string containing the separator splits into at least two parts. -/
theorem pySplitOn_length_ge_two (sep : Char) (s : Str) (h : pyIn [sep] s = true) :
    2 ≤ (pySplitOn sep s).length := by
  induction s with
  | nil => simp [pyIn, List.isEmpty] at h
  | cons c t ih =>
    unfold pySplitOn
    by_cases hc : c == sep
    · have := pySplitOn_ne_nil sep t
      simp [hc]
      omega
    · have hp : pyIn [sep] t = true := by
        unfold pyIn at h
        have : ([sep].isPrefixOf (c :: t)) = false := by
          simp [List.isPrefixOf]
          exact fun hh => absurd (by simp [hh] : (c == sep) = true) (by simp_all)
        simpa [this] using h
      have h2 := ih hp
      simp [hc]
      cases hsp : pySplitOn sep t with
      | nil => simp [hsp] at h2
      | cons a r =>
        simp [hsp] at h2 ⊢
        omega

/-- Core unfolding of `fix_ocr_date_errors` when the input contains a slash. -/
theorem fix_ocr_eq_core (s : Str) (hin : pyIn (mkStr ("/")) s = true) :
    fix_ocr_date_errors s =
      match pyInt ((pySplitOn '/' s).getD 0 []) with
      | none => s
      | some month =>
        if 12 < month then
          match ocr_month_corrections month.toNat with
          | some corrected =>
            pyJoin (mkStr ("/"))
              ((pySplitOn '/' s).set 0
                (zfill (if 10 ≤ month.toNat then 2 else 1) (natToStr corrected)))
          | none =>
            if 1 < month.toNat / 10 then
              if month.toNat % 10 ≤ 2 then
                pyJoin (mkStr ("/"))
                  ((pySplitOn '/' s).set 0 (natToStr (10 + month.toNat % 10)))
              else s
            else s
        else s := by
  have h2 := pySplitOn_length_ge_two '/' s hin
  have hne : s.isEmpty = false := by
    cases s with
    | nil => simp [pyIn, mkStr, List.isEmpty] at hin
    | cons c t => rfl
  unfold fix_ocr_date_errors
  rw [hin, hne]
  rw [if_neg (by simp), if_neg (by omega)]

/-- C4, amended: `_fix_ocr_date_errors` returns the input unchanged when
there is no slash, no parsable month, or the month is at most 12; a month
above 12 is rewritten by the table 42, 41, 40, 14, 13; otherwise, when the
month divided by 10 exceeds 1 (the claim said "tens digit", which differs
for months of three or more digits) and its units digit is at most 2, the
month becomes 10 plus the units digit; in all remaining cases the input is
returned unchanged. -/
theorem C4_amended_ocr_date (s : Str) :
    (pyIn (mkStr ("/")) s = false → fix_ocr_date_errors s = s) ∧
    (pyInt ((pySplitOn '/' s).getD 0 []) = none → fix_ocr_date_errors s = s) ∧
    (∀ m : Int, pyInt ((pySplitOn '/' s).getD 0 []) = some m → m ≤ 12 →
      fix_ocr_date_errors s = s) ∧
    (∀ m : Int, pyIn (mkStr ("/")) s = true →
      pyInt ((pySplitOn '/' s).getD 0 []) = some m → 12 < m →
      (∀ v, ocr_month_corrections m.toNat = some v →
        fix_ocr_date_errors s =
          pyJoin (mkStr ("/")) ((pySplitOn '/' s).set 0 (natToStr v))) ∧
      (ocr_month_corrections m.toNat = none → 1 < m.toNat / 10 → m.toNat % 10 ≤ 2 →
        fix_ocr_date_errors s =
          pyJoin (mkStr ("/")) ((pySplitOn '/' s).set 0 (natToStr (10 + m.toNat % 10)))) ∧
      (ocr_month_corrections m.toNat = none → ¬(1 < m.toNat / 10 ∧ m.toNat % 10 ≤ 2) →
        fix_ocr_date_errors s = s)) := by
  have hnoslash : pyIn (mkStr ("/")) s = false → fix_ocr_date_errors s = s := by
    intro h
    unfold fix_ocr_date_errors
    rw [h]
    simp
  refine ⟨hnoslash, ?_, ?_, ?_⟩
  · intro h
    by_cases hin : pyIn (mkStr ("/")) s = true
    · rw [fix_ocr_eq_core s hin, h]
    · exact hnoslash (by simpa using hin)
  · intro m hm hle
    by_cases hin : pyIn (mkStr ("/")) s = true
    · rw [fix_ocr_eq_core s hin, hm]
      simp only [if_neg (by omega : ¬ (12 : Int) < m)]
    · exact hnoslash (by simpa using hin)
  · intro m hin hm h12
    have h10 : 10 ≤ m.toNat := by omega
    refine ⟨?_, ?_, ?_⟩
    · intro v hv
      rw [fix_ocr_eq_core s hin, hm]
      simp only [if_pos h12, hv]
      have hz : zfill (if 10 ≤ m.toNat then 2 else 1) (natToStr v) = natToStr v := by
        rw [if_pos h10]
        unfold ocr_month_corrections at hv
        split_ifs at hv <;> simp_all <;> (subst hv; decide)
      rw [hz]
    · intro hnone hdiv hmod
      rw [fix_ocr_eq_core s hin, hm]
      simp only [if_pos h12, hnone, if_pos hdiv, if_pos hmod]
    · intro hnone hnot
      rw [fix_ocr_eq_core s hin, hm]
      simp only [if_pos h12, hnone]
      by_cases hdiv : 1 < m.toNat / 10
      · rw [if_pos hdiv, if_neg (by omega)]
      · rw [if_neg hdiv]

/-- C4, witness: the claim's own example, derived from the amended theorem:
`"42/29/2025"` is rewritten to `"12/29/2025"` through the table entry 42. -/
theorem C4_witness :
    fix_ocr_date_errors (mkStr ("42/29/2025")) = mkStr ("12/29/2025") := by
  have h := ((C4_amended_ocr_date (mkStr ("42/29/2025"))).2.2.2 42 (by decide) (by decide)
    (by decide)).1 12 (by decide)
  rw [h]
  decide

/-- The total deduction C3 describes for a non-empty list, written from the
claim's words: 20 when fewer than 90 percent of entries have a well-formed
date, 30 when fewer than 90 percent have a positive amount field, 30 when
fewer than 80 percent have a description of at least 3 characters with a
letter, 20 when there are fewer than 3 transactions, and 10 when the
unique-description ratio is below one half. -/
def c3Deduction (ts : List Txn) : Int :=
  (if mkRat (ts.countP (fun t => hasValidDate t)) ts.length < mkRat 9 10 then 20 else 0) +
  (if mkRat (ts.countP (fun t => hasValidAmount t)) ts.length < mkRat 9 10 then 30 else 0) +
  (if mkRat (ts.countP (fun t => hasValidDesc t)) ts.length < mkRat 8 10 then 30 else 0) +
  (if ts.length < 3 then 20 else 0) +
  (if mkRat ((ts.map (fun t => t.place)).dedup.length) ts.length < mkRat 5 10 then 10 else 0)

/-- C3: `validate_transactions` returns score 0 and `valid = false` for an
empty list; for a non-empty list the score is 100 minus the five deductions
(clamped at 0) and `valid` holds exactly when the pre-clamp score is at
least 50; a list of at least 3 transactions whose entries all have valid
dates, positive amounts and letter-bearing descriptions of length at least
3, with pairwise distinct descriptions, scores exactly 100. -/
theorem C3_validator_score :
    (∀ method : Str,
      validate_transactions [] method =
        { valid := false, score := 0, transaction_count := 0, method := method }) ∧
    (∀ (ts : List Txn) (method : Str), ts ≠ [] →
      (validate_transactions ts method).score = max 0 (100 - c3Deduction ts) ∧
      ((validate_transactions ts method).valid = true ↔ 50 ≤ 100 - c3Deduction ts)) ∧
    (∀ (ts : List Txn) (method : Str), 3 ≤ ts.length →
      (∀ t ∈ ts, hasValidDate t = true ∧ hasValidAmount t = true ∧ hasValidDesc t = true) →
      (ts.map (fun t => t.place)).Nodup →
      (validate_transactions ts method).score = 100 ∧
      (validate_transactions ts method).valid = true) := by
  have core : ∀ (ts : List Txn) (method : Str), ts ≠ [] →
      (validate_transactions ts method).score = max 0 (100 - c3Deduction ts) ∧
      ((validate_transactions ts method).valid = true ↔ 50 ≤ 100 - c3Deduction ts) := by
    intro ts method hne
    have hempty : ts.isEmpty = false := by
      cases ts
      · exact absurd rfl hne
      · rfl
    unfold validate_transactions c3Deduction
    rw [hempty]
    simp only [Bool.false_eq_true, if_false, decide_eq_true_eq]
    constructor
    · split_ifs <;> omega
    · split_ifs <;> omega
  refine ⟨fun method => rfl, core, ?_⟩
  intro ts method h3 hall hnodup
  have hn0 : ts.length ≠ 0 := by omega
  have hnq : ((ts.length : ℚ)) ≠ 0 := by exact_mod_cast hn0
  have hone : mkRat ts.length ts.length = 1 := by
    rw [Rat.mkRat_eq_div]
    exact div_self hnq
  have hd1 : ts.countP (fun t => hasValidDate t) = ts.length :=
    List.countP_eq_length.mpr (fun t ht => (hall t ht).1)
  have hd2 : ts.countP (fun t => hasValidAmount t) = ts.length :=
    List.countP_eq_length.mpr (fun t ht => (hall t ht).2.1)
  have hd3 : ts.countP (fun t => hasValidDesc t) = ts.length :=
    List.countP_eq_length.mpr (fun t ht => (hall t ht).2.2)
  have hd5 : ((ts.map (fun t => t.place)).dedup.length) = ts.length := by
    rw [List.dedup_eq_self.mpr hnodup, List.length_map]
  have hded : c3Deduction ts = 0 := by
    unfold c3Deduction
    rw [hd1, hd2, hd3, hd5, hone]
    rw [if_neg (by rw [Rat.mkRat_eq_div]; norm_num)]
    rw [if_neg (by rw [Rat.mkRat_eq_div]; norm_num)]
    rw [if_neg (by rw [Rat.mkRat_eq_div]; norm_num)]
    rw [if_neg (by omega)]
    rw [if_neg (by rw [Rat.mkRat_eq_div]; norm_num)]
    norm_num
  have hne : ts ≠ [] := by
    cases ts
    · simp at h3
    · simp
  obtain ⟨hs, hv⟩ := core ts method hne
  rw [hded] at hs hv
  exact ⟨by rw [hs]; rfl, hv.mpr (by norm_num)⟩

/-- C3, witness: the empty list scores 0 and is invalid; a concrete pair
shows a deduction; a concrete 3-element list with distinct valid entries
scores exactly 100 and is valid. -/
theorem C3_witness :
    (validate_transactions [] (mkStr ("pdfplumber"))).score = 0 ∧
    (validate_transactions
      [{ transactionDate := mkStr ("01/15/2025"), place := mkStr ("Walmart"),
         amount := some (mkRat 4523 100) },
       { transactionDate := mkStr ("01/16/2025"), place := mkStr ("Target"),
         amount := some (mkRat 100 1) },
       { transactionDate := mkStr ("01/17/2025"), place := mkStr ("Costco"),
         amount := some (mkRat 5 1) }] (mkStr ("OCR"))).score = 100 := by
  constructor
  · rw [(C3_validator_score.1 (mkStr ("pdfplumber")))]
  · exact ((C3_validator_score.2.2 _ (mkStr ("OCR")) (by decide)
      (by decide) (by decide)).1)

/-- A cache state binding the two-character key used by the C7 counterexample. -/
def c7cache : Cache := [(mkStr ("AA"), mkStr ("American Airlines"))]

/-- C7, counterexample: the raw name `"AA"` has its uppercase-trimmed form
as a cache key, yet `_clean_merchant_name_with_context` returns the raw
name, not the cached value, because the length guard `len(name) < 3` fires
before the cache lookup. -/
theorem C7_counterexample :
    cacheGet c7cache (pyStrip (pyUpper (mkStr ("AA")))) = some (mkStr ("American Airlines")) ∧
    (clean_with_context llmOff c7cache (mkStr ("AA")) none none).1 = mkStr ("AA") ∧
    mkStr ("AA") ≠ mkStr ("American Airlines") := by
  refine ⟨by decide, by decide, by decide⟩

/-- C7, amended: for every raw name of length at least 3 whose
uppercase-trimmed form is a cache key, `_clean_merchant_name_with_context`
returns the cached value immediately and leaves the cache unchanged, so a
repeated call against the resulting state returns the same value (for raw
names shorter than 3 characters the guard returns the raw name before the
cache is consulted). -/
theorem C7_cache_hit (llm : LLM) (cache : Cache) (name : Str) (amount : Option ℚ)
    (date : Option Str) (v : Str) (hlen : 3 ≤ name.length)
    (hhit : cacheGet cache (pyStrip (pyUpper name)) = some v) :
    clean_with_context llm cache name amount date = (v, cache) ∧
    clean_with_context llm (clean_with_context llm cache name amount date).2 name amount date =
      (v, cache) := by
  have hne : name.isEmpty = false := by
    cases name
    · simp at hlen
    · rfl
  have hmain : clean_with_context llm cache name amount date = (v, cache) := by
    unfold clean_with_context
    rw [hne]
    rw [if_neg (by simp; omega)]
    simp only [hhit]
  exact ⟨hmain, by rw [hmain, hmain]⟩

/-- C7, witness: a concrete cache hit returning the stored value with the
cache unchanged. -/
theorem C7_witness :
    clean_with_context llmOff [(mkStr ("ABC"), mkStr ("Nice Shop"))] (mkStr ("abc")) none none =
      (mkStr ("Nice Shop"), [(mkStr ("ABC"), mkStr ("Nice Shop"))]) :=
  (C7_cache_hit llmOff [(mkStr ("ABC"), mkStr ("Nice Shop"))] (mkStr ("abc")) none none
    (mkStr ("Nice Shop")) (by decide) (by decide)).1

/-- The language-model oracle of the C2 counterexample: the service is
available and every cleaning request returns the well-formed name
`"Foo Bar"` (reachable model output: it passes every filter of
`_clean_llm_response`, and three agreeing responses win the vote). -/
def llmFooBar : LLM :=
  { available := true, clean := fun _ _ _ => mkStr ("Foo Bar"),
    classify := fun _ _ => mkStr ("expense") }

/-- C2, counterexample: with the model service available, the entry point
`_clean_merchant_name_with_context` passes the pattern result
`"Squarespace"` to the model and can return a different name, so the
claimed "regardless of whether the language-model service is available" and
"no model call" fail at the entry point. -/
theorem C2_counterexample :
    (clean_with_context llmFooBar [] (mkStr ("SQSP* INV165866692")) none none).1 =
      mkStr ("Foo Bar") ∧
    mkStr ("Foo Bar") ≠ mkStr ("Squarespace") := by
  refine ⟨by decide, by decide⟩

/-- C2, amended: the pattern phase `_clean_merchant_name` maps
`"SQSP* INV165866692"` to exactly `"Squarespace"` for every oracle (the
processor rule returns before the model phase, so no model call influences
the result); and whenever the model service is unavailable and the name is
not cached, the entry point `_clean_merchant_name_with_context` returns
exactly `"Squarespace"`.  (When the service is available the entry point
feeds `"Squarespace"` to the model and may return the model's answer
instead.) -/
theorem C2_sqsp_normalization :
    (∀ llm : LLM, clean_merchant_name llm (mkStr ("SQSP* INV165866692")) =
      mkStr ("Squarespace")) ∧
    (∀ (llm : LLM) (cache : Cache) (amount : Option ℚ) (date : Option Str),
      llm.available = false →
      cacheGet cache (pyStrip (pyUpper (mkStr ("SQSP* INV165866692")))) = none →
      (clean_with_context llm cache (mkStr ("SQSP* INV165866692")) amount date).1 =
        mkStr ("Squarespace")) := by
  have hpat : ∀ llm : LLM, clean_merchant_name llm (mkStr ("SQSP* INV165866692")) =
      mkStr ("Squarespace") := fun llm => rfl
  refine ⟨hpat, ?_⟩
  intro llm cache amount date hav hmiss
  unfold clean_with_context
  rw [if_neg (by decide)]
  simp only [hmiss, hpat, hav]
  simp
  rw [if_neg (by decide)]

/-- C2, witness: the unavailable-service case on the empty cache. -/
theorem C2_witness :
    (clean_with_context llmOff [] (mkStr ("SQSP* INV165866692")) none none).1 =
      mkStr ("Squarespace") :=
  C2_sqsp_normalization.2 llmOff [] none none rfl rfl

/-- C8: the amounts list of every accepted `_build_transaction` result maps
to fields by its length: one amount sets only `Amount`; two set `Amount`
and `Balance`; three or more set `Debits` to the first when positive (else
the key is stored holding `None`), `Credits` to the second when positive
(else the key is stored holding `None`), and `Balance` to the third, with
`Amount` unset. -/
theorem C8_amount_field_mapping (llm : LLM) (cache : Cache) (date desc : Str)
    (amounts : List ℚ) (t : Txn) (cache' : Cache)
    (h : build_transaction llm cache date desc amounts = (some t, cache')) :
    (∀ a, amounts = [a] →
      t.amount = some a ∧ t.balance = none ∧ t.debits = none ∧ t.credits = none) ∧
    (∀ a b, amounts = [a, b] →
      t.amount = some a ∧ t.balance = some b ∧ t.debits = none ∧ t.credits = none) ∧
    (∀ a b c rest, amounts = a :: b :: c :: rest →
      t.debits = some (if 0 < a then some a else none) ∧
      t.credits = some (if 0 < b then some b else none) ∧
      t.balance = some c ∧ t.amount = none) := by
  refine ⟨?_, ?_, ?_⟩
  · intro a ha
    subst ha
    simp only [build_transaction] at h
    split_ifs at h with g1 g2 g3 g4 g5 g6
    · exact Option.noConfusion (congrArg Prod.fst h)
    · exact Option.noConfusion (congrArg Prod.fst h)
    · exact Option.noConfusion (congrArg Prod.fst h)
    · obtain rfl : _ = t := Option.some.inj (congrArg Prod.fst h)
      refine ⟨?_, ?_, ?_, ?_⟩ <;> simp
    · simp at g4 <;> omega
    · simp at g4 <;> omega
    · simp at g4 <;> omega
  · intro a b hab
    subst hab
    simp only [build_transaction] at h
    split_ifs at h with g1 g2 g3 g4 g5 g6
    · exact Option.noConfusion (congrArg Prod.fst h)
    · exact Option.noConfusion (congrArg Prod.fst h)
    · exact Option.noConfusion (congrArg Prod.fst h)
    · simp at g4 <;> omega
    · obtain rfl : _ = t := Option.some.inj (congrArg Prod.fst h)
      refine ⟨?_, ?_, ?_, ?_⟩ <;> simp
    · simp at g5 <;> omega
    · simp at g5 <;> omega
  · intro a b c rest habc
    subst habc
    simp only [build_transaction] at h
    split_ifs at h with g1 g2 g3 g4 g5 g6
    · exact Option.noConfusion (congrArg Prod.fst h)
    · exact Option.noConfusion (congrArg Prod.fst h)
    · exact Option.noConfusion (congrArg Prod.fst h)
    · simp at g4 <;> omega
    · simp at g5 <;> omega
    · obtain rfl : _ = t := Option.some.inj (congrArg Prod.fst h)
      refine ⟨?_, ?_, ?_, ?_⟩ <;> simp
    · simp at g6 <;> omega

/-- A cache state giving the C8 witness a pre-cleaned description. -/
def c8cache : Cache := [(mkStr ("ABCD"), mkStr ("Abcd"))]

/-- C8, witness: a one-amount transaction built concretely carries only the
`Amount` field. -/
theorem C8_witness :
    ({ transactionDate := mkStr ("01/15/2025"), place := mkStr ("Abcd"),
       placeOriginal := mkStr ("ABCD"), amount := some (mkRat 5 1) } : Txn).amount =
        some (mkRat 5 1) ∧
    ({ transactionDate := mkStr ("01/15/2025"), place := mkStr ("Abcd"),
       placeOriginal := mkStr ("ABCD"), amount := some (mkRat 5 1) } : Txn).balance = none := by
  have h := (C8_amount_field_mapping llmOff c8cache (mkStr ("01/15/2025")) (mkStr ("ABCD"))
    [mkRat 5 1]
    { transactionDate := mkStr ("01/15/2025"), place := mkStr ("Abcd"),
      placeOriginal := mkStr ("ABCD"), amount := some (mkRat 5 1) }
    c8cache (by decide)).1 (mkRat 5 1) rfl
  exact ⟨h.1, h.2.1⟩

/-- The transaction C6 expects from the Walmart sample line. -/
def c6txn : Txn :=
  { transactionDate := mkStr ("01/15/2025"), place := mkStr ("Walmart"),
    placeOriginal := mkStr ("WALMART #4352"), amount := some (mkRat 4523 100) }

/-- C6: on the text whose sole line is `"01/15/2025 WALMART #4352 $45.23"`,
with the model phase unavailable and an empty merchant cache,
`parse_transactions` emits exactly one transaction with date `01/15/2025`,
a cleaned description containing `"Walmart"`, and amount 45.23 — for every
statement year, which the full date makes irrelevant. -/
theorem C6_walmart_line (year : Int) :
    (parse_transactions llmOff [] (mkStr ("01/15/2025 WALMART #4352 $45.23")) year).1 =
      [c6txn] ∧
    c6txn.transactionDate = mkStr ("01/15/2025") ∧
    pyIn (mkStr ("Walmart")) c6txn.place = true ∧
    c6txn.amount = some (mkRat 4523 100) := by
  exact ⟨rfl, rfl, by decide, rfl⟩

/-- The sort comparison is transitive. -/
theorem dateLE_trans : ∀ a b c : Txn, dateLE a b → dateLE b c → dateLE a c := by
  intro a b c h1 h2
  unfold dateLE at *
  simp only [decide_eq_true_eq] at *
  exact le_trans h1 h2

/-- The sort comparison is total. -/
theorem dateLE_total : ∀ a b : Txn, dateLE a b || dateLE b a := by
  intro a b
  unfold dateLE
  rcases le_total a.transactionDate b.transactionDate with h | h
  · simp [h]
  · simp [h]

/-- Inserting into a concatenation whose left part is strictly smaller
than `x` and whose right part starts no smaller than `x` lands exactly in
between. -/
theorem insort_append (le : α → α → Bool) (x : α) :
    ∀ (l₁ l₂ : List α), (∀ b ∈ l₁, (le b x && !(le x b)) = true) →
      (∀ c, l₂.head? = some c → (le c x && !(le x c)) = false) →
      insortBy le x (l₁ ++ l₂) = l₁ ++ x :: l₂ := by
  intro l₁
  induction l₁ with
  | nil =>
    intro l₂ h₁ h₂
    cases l₂ with
    | nil => rfl
    | cons c cs =>
      simp only [List.nil_append]
      unfold insortBy
      rw [h₂ c rfl]
      simp
  | cons b bs ih =>
    intro l₂ h₁ h₂
    simp only [List.cons_append]
    unfold insortBy
    rw [h₁ b (by simp)]
    simp only [if_true]
    rw [ih l₂ (fun z hz => h₁ z (by simp [hz])) h₂]

/-- For a transitive total comparison the stable insertion sort computes
the same list as the library's stable `mergeSort`. -/
theorem isort_eq_mergeSort (le : α → α → Bool)
    (htrans : ∀ a b c : α, le a b → le b c → le a c)
    (htot : ∀ a b : α, le a b || le b a) :
    ∀ l : List α, isortBy le l = l.mergeSort le := by
  intro l
  induction l with
  | nil => simp [isortBy]
  | cons x xs ih =>
    obtain ⟨l₁, l₂, h1, h2, h3⟩ := List.mergeSort_cons htrans htot x xs
    rw [isortBy, ih, h2, h1]
    apply insort_append
    · intro b hb
      have hnb := h3 b hb
      cases hlxb : le x b
      · cases hlbx : le b x
        · have htb := htot x b
          rw [hlxb, hlbx] at htb
          simp at htb
        · simp [hlbx, hlxb]
      · rw [hlxb] at hnb
        simp at hnb
    · intro c hc
      have hs := List.sorted_mergeSort htrans htot (x :: xs)
      rw [h1] at hs
      have hxc : le x c = true := by
        have h4 := (List.pairwise_append.mp hs).2.1
        cases l₂ with
        | nil => simp at hc
        | cons c0 cs =>
          obtain rfl : c0 = c := by simpa using hc
          exact List.rel_of_pairwise_cons h4 (by simp)
      simp [hxc]

/-- The embedded sort is the stable `mergeSort` by date. -/
theorem sortByDate_eq_mergeSort (l : List Txn) : sortByDate l = l.mergeSort dateLE :=
  isort_eq_mergeSort dateLE dateLE_trans dateLE_total l

/-- C9: for non-empty inputs, whenever `cross_reference_transactions`
returns a list (it instead raises when an equal-date comparison reads a
present-but-`None` amount key), that list is in non-decreasing
lexicographic order of the `Transaction Date` strings (plain string
order, not chronological). -/
theorem C9_output_sorted_by_date (llm : LLM) (ta tb : List Txn) (ma mb : Str)
    (cache : Cache) (out : List Txn) (cache' : Cache) (ha : ta ≠ []) (hb : tb ≠ [])
    (hok : cross_reference_transactions llm ta tb ma mb cache = .ok (out, cache')) :
    out.Pairwise (fun x y => x.transactionDate ≤ y.transactionDate) := by
  obtain ⟨hout, -⟩ := cross_ok_nonempty llm ta tb ma mb cache out cache' ha hb hok
  rw [hout]
  rw [sortByDate_eq_mergeSort]
  have hs := List.sorted_mergeSort dateLE_trans dateLE_total
    ((pass1t llm tb ma mb ta [] cache).1 ++
      (tb.enum.filter (fun p => !((pass1t llm tb ma mb ta [] cache).2.1.contains p.1))).map
        (fun p => { p.2 with extractionMethod := some (onlyTag mb) }))
  exact hs.imp (fun h => by simpa [dateLE] using h)

/-- Transactions for the C9 witness. -/
def c9a : Txn :=
  { transactionDate := mkStr ("03/01/2025"), place := mkStr ("AbcA"),
    placeOriginal := mkStr ("AbcA"), amount := some (mkRat 10 1) }

/-- Transactions for the C9 witness. -/
def c9b : Txn :=
  { transactionDate := mkStr ("01/02/2025"), place := mkStr ("AbcB"),
    placeOriginal := mkStr ("AbcB"), amount := some (mkRat 20 1) }

/-- The list the C9 witness run returns. -/
def c9out : List Txn :=
  [{ c9b with extractionMethod := some (onlyTag (mkStr ("OCR"))) },
   { c9a with extractionMethod := some (onlyTag (mkStr ("pdfplumber"))) }]

/-- C9, witness: a concrete non-empty returning run. -/
theorem C9_witness :
    ([c9a] : List Txn) ≠ [] ∧ ([c9b] : List Txn) ≠ [] ∧
    cross_reference_transactions llmOff [c9a] [c9b] (mkStr ("pdfplumber")) (mkStr ("OCR")) [] =
      .ok (c9out, []) ∧
    c9out.Pairwise (fun x y => x.transactionDate ≤ y.transactionDate) :=
  ⟨by decide, by decide, rfl,
    C9_output_sorted_by_date llmOff [c9a] [c9b] (mkStr ("pdfplumber")) (mkStr ("OCR")) []
      c9out [] (by decide) (by decide) rfl⟩

/-- The matched-index set of pass 1 after the first `i` entries of
`transactions_a` have been processed. -/
def matchedAt (llm : LLM) (bl : List Txn) (ma mb : Str) (al : List Txn) (cache : Cache)
    (i : Nat) : List Nat :=
  (pass1t llm bl ma mb (al.take i) [] cache).2.1

/-- The merchant cache after the first `i` entries of `transactions_a`
have been processed. -/
def cacheAt (llm : LLM) (bl : List Txn) (ma mb : Str) (al : List Txn) (cache : Cache)
    (i : Nat) : Cache :=
  (pass1t llm bl ma mb (al.take i) [] cache).2.2

/-- The B-index pass 1 consumes at step `i` (none when no unmatched entry
of `transactions_b` matches). -/
def chosenAt (llm : LLM) (bl : List Txn) (ma mb : Str) (al : List Txn) (cache : Cache)
    (i : Nat) : Option Nat :=
  scanB (al.getD i default) (matchedAt llm bl ma mb al cache i) bl

/-- The record pass 1 emits at step `i`. -/
def recordAt (llm : LLM) (bl : List Txn) (ma mb : Str) (al : List Txn) (cache : Cache)
    (i : Nat) : Txn :=
  match chosenAt llm bl ma mb al cache i with
  | some j =>
    (merge_record llm (cacheAt llm bl ma mb al cache i) (al.getD i default)
      (bl.getD j default) ma mb).1
  | none => { al.getD i default with extractionMethod := some (onlyTag ma) }

/-- Pass 1 over an appended list runs the two halves in sequence. -/
theorem pass1_append (llm : LLM) (bl : List Txn) (ma mb : Str) :
    ∀ (xs ys : List Txn) (m : List Nat) (c : Cache),
      pass1t llm bl ma mb (xs ++ ys) m c =
        ((pass1t llm bl ma mb xs m c).1 ++
          (pass1t llm bl ma mb ys (pass1t llm bl ma mb xs m c).2.1
            (pass1t llm bl ma mb xs m c).2.2).1,
         (pass1t llm bl ma mb ys (pass1t llm bl ma mb xs m c).2.1
            (pass1t llm bl ma mb xs m c).2.2).2) := by
  intro xs
  induction xs with
  | nil => intro ys m c; rfl
  | cons a arest ih =>
    intro ys m c
    simp only [List.cons_append, pass1t]
    cases scanB a m bl with
    | some j => simp [List.append_eq, ih]
    | none => simp [List.append_eq, ih]

/-- Pass 1 emits exactly one record per processed entry. -/
theorem pass1_length (llm : LLM) (bl : List Txn) (ma mb : Str) :
    ∀ (xs : List Txn) (m : List Nat) (c : Cache),
      (pass1t llm bl ma mb xs m c).1.length = xs.length := by
  intro xs
  induction xs with
  | nil => intro m c; rfl
  | cons a arest ih =>
    intro m c
    simp only [pass1t]
    cases scanB a m bl with
    | some j => simp [ih]
    | none => simp [ih]

/-- Splitting a `take` at a position inside the list. -/
theorem take_succ_getD (al : List Txn) (i : Nat) (h : i < al.length) :
    al.take (i + 1) = al.take i ++ [al.getD i default] := by
  rw [List.take_succ, List.getElem?_eq_getElem h, List.getD_eq_getElem al default h]
  rfl

/-- One step of the pass-1 state. -/
theorem state_step (llm : LLM) (bl : List Txn) (ma mb : Str) (al : List Txn) (cache : Cache)
    (i : Nat) (h : i < al.length) :
    matchedAt llm bl ma mb al cache (i + 1) =
      (match chosenAt llm bl ma mb al cache i with
       | some j => matchedAt llm bl ma mb al cache i ++ [j]
       | none => matchedAt llm bl ma mb al cache i) ∧
    cacheAt llm bl ma mb al cache (i + 1) =
      (match chosenAt llm bl ma mb al cache i with
       | some j =>
         (merge_record llm (cacheAt llm bl ma mb al cache i) (al.getD i default)
           (bl.getD j default) ma mb).2
       | none => cacheAt llm bl ma mb al cache i) := by
  unfold matchedAt cacheAt
  rw [take_succ_getD al i h, pass1_append]
  unfold chosenAt scanB
  simp only [pass1t]
  cases hf : scanGo (al.getD i default)
      (pass1t llm bl ma mb (al.take i) [] cache).2.1 0 bl with
  | some j =>
    constructor
    · simp only [matchedAt, scanB]
      rw [hf]
    · simp only [cacheAt, matchedAt, scanB]
      rw [hf]
  | none =>
    constructor
    · simp only [matchedAt, scanB]
      rw [hf]
    · simp only [cacheAt, matchedAt, scanB]
      rw [hf]

/-- The pass-1 state is unchanged beyond the end of the list. -/
theorem state_stable (llm : LLM) (bl : List Txn) (ma mb : Str) (al : List Txn) (cache : Cache)
    (i : Nat) (h : al.length ≤ i) :
    matchedAt llm bl ma mb al cache i = matchedAt llm bl ma mb al cache al.length ∧
    cacheAt llm bl ma mb al cache i = cacheAt llm bl ma mb al cache al.length := by
  unfold matchedAt cacheAt
  rw [List.take_of_length_le h, List.take_length]
  exact ⟨rfl, rfl⟩

/-- Soundness of the inner scan: a returned index is in range, unmatched,
matching, and minimal among the scanned positions. -/
theorem find_go_sound (a : Txn) (m : List Nat) :
    ∀ (bs : List Txn) (idx j : Nat), scanGo a m idx bs = some j →
      idx ≤ j ∧ j - idx < bs.length ∧ m.contains j = false ∧
      xrefMatches a (bs.getD (j - idx) default) = true ∧
      ∀ k, idx ≤ k → k < j →
        (m.contains k = true ∨ xrefMatches a (bs.getD (k - idx) default) = false) := by
  intro bs
  induction bs with
  | nil => intro idx j h; exact absurd h (by simp [scanGo])
  | cons b brest ih =>
    intro idx j h
    unfold scanGo at h
    by_cases hc : m.contains idx = true
    · rw [if_pos hc] at h
      obtain ⟨h1, h2, h3, h4, h5⟩ := ih (idx + 1) j h
      refine ⟨by omega, ?_, h3, ?_, ?_⟩
      · simp only [List.length_cons]
        omega
      · have : j - idx = (j - (idx + 1)) + 1 := by omega
        rw [this]
        simpa using h4
      · intro k hk1 hk2
        by_cases hkeq : k = idx
        · exact Or.inl (hkeq ▸ hc)
        · have := h5 k (by omega) hk2
          have heq : k - idx = (k - (idx + 1)) + 1 := by omega
          rw [heq]
          simpa using this
    · rw [if_neg hc] at h
      by_cases hx : xrefMatches a b = true
      · rw [if_pos hx] at h
        obtain rfl : idx = j := by
          have := Option.some.inj h
          omega
        refine ⟨le_refl _, by simp, by simpa using hc, by simpa using hx, ?_⟩
        intro k hk1 hk2
        omega
      · rw [if_neg hx] at h
        obtain ⟨h1, h2, h3, h4, h5⟩ := ih (idx + 1) j h
        refine ⟨by omega, ?_, h3, ?_, ?_⟩
        · simp only [List.length_cons]
          omega
        · have : j - idx = (j - (idx + 1)) + 1 := by omega
          rw [this]
          simpa using h4
        · intro k hk1 hk2
          by_cases hkeq : k = idx
          · subst hkeq
            simp only [Nat.sub_self]
            exact Or.inr (by simpa using hx)
          · have := h5 k (by omega) hk2
            have heq : k - idx = (k - (idx + 1)) + 1 := by omega
            rw [heq]
            simpa using this

/-- Completeness of the inner scan: when some unmatched matching index
exists, the scan returns one. -/
theorem find_go_some (a : Txn) (m : List Nat) :
    ∀ (bs : List Txn) (idx : Nat),
      (∃ d, d < bs.length ∧ m.contains (idx + d) = false ∧
        xrefMatches a (bs.getD d default) = true) →
      (scanGo a m idx bs).isSome := by
  intro bs
  induction bs with
  | nil => intro idx ⟨d, hd, _, _⟩; simp at hd
  | cons b brest ih =>
    intro idx ⟨d, hd, hm, hx⟩
    unfold scanGo
    by_cases hc : m.contains idx = true
    · rw [if_pos hc]
      apply ih
      cases d with
      | zero => exact absurd hc (by simpa using hm)
      | succ d' =>
        refine ⟨d', by simpa using hd, ?_, by simpa using hx⟩
        have : idx + 1 + d' = idx + (d' + 1) := by omega
        rw [this]
        exact hm
    · rw [if_neg hc]
      by_cases hx0 : xrefMatches a b = true
      · rw [if_pos hx0]
        rfl
      · rw [if_neg hx0]
        apply ih
        cases d with
        | zero => exact absurd (by simpa using hx) hx0
        | succ d' =>
          refine ⟨d', by simpa using hd, ?_, by simpa using hx⟩
          have : idx + 1 + d' = idx + (d' + 1) := by omega
          rw [this]
          exact hm

/-- Soundness of `scanB` at the top level. -/
theorem find_b_sound (a : Txn) (m : List Nat) (bl : List Txn) (j : Nat)
    (h : scanB a m bl = some j) :
    j < bl.length ∧ m.contains j = false ∧ xrefMatches a (bl.getD j default) = true ∧
    ∀ k, k < j → (m.contains k = true ∨ xrefMatches a (bl.getD k default) = false) := by
  obtain ⟨h1, h2, h3, h4, h5⟩ := find_go_sound a m bl 0 j h
  simp only [Nat.sub_zero] at h2 h4
  exact ⟨h2, h3, h4, fun k hk => by simpa using h5 k (Nat.zero_le k) hk⟩

/-- Completeness of `scanB` at the top level. -/
theorem find_b_some (a : Txn) (m : List Nat) (bl : List Txn)
    (h : ∃ j, j < bl.length ∧ m.contains j = false ∧
      xrefMatches a (bl.getD j default) = true) :
    (scanB a m bl).isSome := by
  obtain ⟨j, h1, h2, h3⟩ := h
  exact find_go_some a m bl 0 ⟨j, h1, by simpa using h2, h3⟩

/-- The matched set only grows from one step to the next. -/
theorem matched_step_subset (llm : LLM) (bl : List Txn) (ma mb : Str) (al : List Txn)
    (cache : Cache) (i : Nat) :
    ∀ j ∈ matchedAt llm bl ma mb al cache i, j ∈ matchedAt llm bl ma mb al cache (i + 1) := by
  intro j hj
  by_cases h : i < al.length
  · rw [(state_step llm bl ma mb al cache i h).1]
    cases chosenAt llm bl ma mb al cache i with
    | some j' => simpa using Or.inl hj
    | none => exact hj
  · have h1 := (state_stable llm bl ma mb al cache i (by omega)).1
    have h2 := (state_stable llm bl ma mb al cache (i + 1) (by omega)).1
    rw [h2, ← h1]
    exact hj

/-- The matched set grows monotonically. -/
theorem matched_mono (llm : LLM) (bl : List Txn) (ma mb : Str) (al : List Txn)
    (cache : Cache) :
    ∀ i k, i ≤ k →
      ∀ j ∈ matchedAt llm bl ma mb al cache i, j ∈ matchedAt llm bl ma mb al cache k := by
  intro i k
  induction k with
  | zero =>
    intro h j hj
    obtain rfl := Nat.le_zero.mp h
    exact hj
  | succ k' ih =>
    intro h j hj
    by_cases hik : i = k' + 1
    · exact hik ▸ hj
    · exact matched_step_subset llm bl ma mb al cache k' j (ih (by omega) j hj)

/-- The matched set after `n` steps records the chosen index of each step. -/
theorem matchedAt_eq_filterMap (llm : LLM) (bl : List Txn) (ma mb : Str) (al : List Txn)
    (cache : Cache) :
    ∀ n, n ≤ al.length →
      matchedAt llm bl ma mb al cache n =
        (List.range n).filterMap (chosenAt llm bl ma mb al cache) := by
  intro n
  induction n with
  | zero => intro h; rfl
  | succ n' ih =>
    intro h
    rw [(state_step llm bl ma mb al cache n' (by omega)).1, List.range_succ,
      List.filterMap_append, ← ih (by omega)]
    cases hc : chosenAt llm bl ma mb al cache n' with
    | some j => simp [hc]
    | none => simp [hc]

/-- A chosen index is never already matched at its own step. -/
theorem chosen_not_matched (llm : LLM) (bl : List Txn) (ma mb : Str) (al : List Txn)
    (cache : Cache) (i j : Nat) (h : chosenAt llm bl ma mb al cache i = some j) :
    (matchedAt llm bl ma mb al cache i).contains j = false :=
  (find_b_sound _ _ _ _ h).2.1

/-- A chosen index is matched from the next step on. -/
theorem chosen_mem_next (llm : LLM) (bl : List Txn) (ma mb : Str) (al : List Txn)
    (cache : Cache) (i j : Nat) (hi : i < al.length)
    (h : chosenAt llm bl ma mb al cache i = some j) :
    j ∈ matchedAt llm bl ma mb al cache (i + 1) := by
  rw [(state_step llm bl ma mb al cache i hi).1, h]
  simp

/-- Distinct steps never choose the same B-index. -/
theorem chosen_injective (llm : LLM) (bl : List Txn) (ma mb : Str) (al : List Txn)
    (cache : Cache) (i i' j : Nat) (hi : i < al.length) (hi' : i' < al.length)
    (hne : i ≠ i') (h : chosenAt llm bl ma mb al cache i = some j) :
    chosenAt llm bl ma mb al cache i' ≠ some j := by
  intro h'
  rcases Nat.lt_or_ge i i' with hlt | hge
  · have hmem := matched_mono llm bl ma mb al cache (i + 1) i' (by omega) j
      (chosen_mem_next llm bl ma mb al cache i j hi h)
    have := chosen_not_matched llm bl ma mb al cache i' j h'
    simp at this
    exact this hmem
  · have hlt' : i' < i := by omega
    have hmem := matched_mono llm bl ma mb al cache (i' + 1) i (by omega) j
      (chosen_mem_next llm bl ma mb al cache i' j hi' h')
    have := chosen_not_matched llm bl ma mb al cache i j h
    simp at this
    exact this hmem

/-- The matched list is duplicate-free. -/
theorem matched_nodup (llm : LLM) (bl : List Txn) (ma mb : Str) (al : List Txn)
    (cache : Cache) :
    ∀ n, n ≤ al.length → (matchedAt llm bl ma mb al cache n).Nodup := by
  intro n
  induction n with
  | zero => intro h; exact List.nodup_nil
  | succ n' ih =>
    intro h
    rw [(state_step llm bl ma mb al cache n' (by omega)).1]
    cases hc : chosenAt llm bl ma mb al cache n' with
    | none => exact ih (by omega)
    | some j =>
      have hnm := chosen_not_matched llm bl ma mb al cache n' j hc
      simp at hnm
      simp [List.nodup_append, ih (by omega), hnm]

/-- Every matched index is a valid index of `transactions_b`. -/
theorem matched_lt (llm : LLM) (bl : List Txn) (ma mb : Str) (al : List Txn)
    (cache : Cache) :
    ∀ n, n ≤ al.length → ∀ j ∈ matchedAt llm bl ma mb al cache n, j < bl.length := by
  intro n
  induction n with
  | zero => intro h j hj; simp [matchedAt, pass1t] at hj
  | succ n' ih =>
    intro h j hj
    rw [(state_step llm bl ma mb al cache n' (by omega)).1] at hj
    cases hc : chosenAt llm bl ma mb al cache n' with
    | none => exact ih (by omega) j (by rwa [hc] at hj)
    | some j' =>
      rw [hc] at hj
      rcases List.mem_append.mp hj with hj1 | hj2
      · exact ih (by omega) j hj1
      · obtain rfl : j = j' := by simpa using hj2
        exact (find_b_sound _ _ _ _ hc).1

/-- The record pass 1 emits at position `i`. -/
theorem pass1_record (llm : LLM) (bl : List Txn) (ma mb : Str) (al : List Txn)
    (cache : Cache) (i : Nat) (h : i < al.length) :
    (pass1t llm bl ma mb al [] cache).1[i]? =
      some (recordAt llm bl ma mb al cache i) := by
  have hsplit : al = al.take i ++ (al.getD i default :: al.drop (i + 1)) := by
    rw [List.getD_eq_getElem al default h, ← List.drop_eq_getElem_cons h,
      List.take_append_drop]
  conv_lhs => rw [hsplit]
  rw [pass1_append]
  have hlen : (pass1t llm bl ma mb (al.take i) [] cache).1.length = i := by
    rw [pass1_length, List.length_take]
    omega
  rw [List.getElem?_append_right (by omega)]
  rw [hlen, Nat.sub_self]
  unfold recordAt chosenAt
  simp only [pass1t, matchedAt, cacheAt, scanB]
  cases hf : scanGo (al.getD i default)
      (pass1t llm bl ma mb (al.take i) [] cache).2.1 0 bl with
  | some j => simp
  | none => simp

/-- C1: whenever `cross_reference_transactions` returns at all and the
`i`-th transaction of list A has some not-yet-matched transaction in list
B with an identical date string and amounts passing the float tolerance
test `abs(float(a) - float(b)) < 0.02`, pass 1 consumes the first such
B-entry (in B's order), emits exactly one merged record for the pair —
present in the returned list, tagged as matched, its `Place_Original` the
better-scoring of the two original descriptions and its `Place` the
context-aware re-cleaning of that selected original — and no other step of
pass 1 consumes that B-entry, which is also excluded from pass 2 by
membership in the matched set. -/
theorem C1_greedy_match_merge (llm : LLM) (ta tb : List Txn) (ma mb : Str) (cache : Cache)
    (i : Nat) (out : List Txn) (cache' : Cache) (ha : ta ≠ []) (hb : tb ≠ [])
    (hi : i < ta.length)
    (hok : cross_reference_transactions llm ta tb ma mb cache = .ok (out, cache'))
    (hex : ∃ j, j < tb.length ∧ (matchedAt llm tb ma mb ta cache i).contains j = false ∧
      (ta.getD i default).transactionDate = (tb.getD j default).transactionDate ∧
      ∃ qa qb, xrefAmount (ta.getD i default) = some qa ∧
        xrefAmount (tb.getD j default) = some qb ∧ fltAbsLt002 qa qb = true) :
    ∃ (j₀ : Nat) (rec : Txn),
      chosenAt llm tb ma mb ta cache i = some j₀ ∧
      rec = (merge_record llm (cacheAt llm tb ma mb ta cache i) (ta.getD i default)
        (tb.getD j₀ default) ma mb).1 ∧
      j₀ < tb.length ∧
      (matchedAt llm tb ma mb ta cache i).contains j₀ = false ∧
      (ta.getD i default).transactionDate = (tb.getD j₀ default).transactionDate ∧
      (∃ qa qb, xrefAmount (ta.getD i default) = some qa ∧
        xrefAmount (tb.getD j₀ default) = some qb ∧ fltAbsLt002 qa qb = true) ∧
      (∀ k, k < j₀ → (matchedAt llm tb ma mb ta cache i).contains k = true ∨
        xrefMatches (ta.getD i default) (tb.getD k default) = false) ∧
      (pass1t llm tb ma mb ta [] cache).1[i]? = some rec ∧
      rec ∈ out ∧
      rec.extractionMethod = some (matchedTag ma mb) ∧
      rec.placeOriginal = select_best_description (ta.getD i default).placeOriginal
        (tb.getD j₀ default).placeOriginal (ta.getD i default).placeOriginal
        (tb.getD j₀ default).placeOriginal ∧
      (score_description (tb.getD j₀ default).placeOriginal (tb.getD j₀ default).placeOriginal ≤
        score_description (ta.getD i default).placeOriginal (ta.getD i default).placeOriginal →
        rec.placeOriginal = (ta.getD i default).placeOriginal) ∧
      (score_description (ta.getD i default).placeOriginal (ta.getD i default).placeOriginal <
        score_description (tb.getD j₀ default).placeOriginal (tb.getD j₀ default).placeOriginal →
        rec.placeOriginal = (tb.getD j₀ default).placeOriginal) ∧
      rec.place = (clean_with_context llm (cacheAt llm tb ma mb ta cache i)
        rec.placeOriginal (xrefAmount (ta.getD i default))
        (some (ta.getD i default).transactionDate)).1 ∧
      (∀ i', i' < ta.length → i' ≠ i → chosenAt llm tb ma mb ta cache i' ≠ some j₀) ∧
      j₀ ∈ (pass1t llm tb ma mb ta [] cache).2.1 := by
  obtain ⟨j, hj1, hj2, hj3, qa, qb, hqa, hqb, hflt⟩ := hex
  have hxm : xrefMatches (ta.getD i default) (tb.getD j default) = true := by
    unfold xrefMatches
    rw [Bool.and_eq_true, beq_iff_eq]
    refine ⟨hj3, ?_⟩
    simp only [hqa, hqb]
    exact hflt
  have hsome : (chosenAt llm tb ma mb ta cache i).isSome :=
    find_b_some _ _ _ ⟨j, hj1, hj2, hxm⟩
  obtain ⟨j₀, hc⟩ := Option.isSome_iff_exists.mp hsome
  obtain ⟨hr1, hr2, hr3, hr4⟩ := find_b_sound _ _ _ _ hc
  have hxm0 : (ta.getD i default).transactionDate = (tb.getD j₀ default).transactionDate ∧
      ∃ qa qb, xrefAmount (ta.getD i default) = some qa ∧
        xrefAmount (tb.getD j₀ default) = some qb ∧ fltAbsLt002 qa qb = true := by
    unfold xrefMatches at hr3
    rw [Bool.and_eq_true, beq_iff_eq] at hr3
    obtain ⟨hdte, hm⟩ := hr3
    refine ⟨hdte, ?_⟩
    have hm2 : (match xrefAmount (ta.getD i default), xrefAmount (tb.getD j₀ default) with
        | some u, some w => fltAbsLt002 u w
        | _, _ => false) = true := hm
    cases hqa0 : xrefAmount (ta.getD i default) with
    | none => rw [hqa0] at hm2; simp at hm2
    | some qa0 =>
      cases hqb0 : xrefAmount (tb.getD j₀ default) with
      | none => rw [hqa0, hqb0] at hm2; simp at hm2
      | some qb0 =>
        rw [hqa0, hqb0] at hm2
        exact ⟨qa0, qb0, rfl, rfl, by simpa using hm2⟩
  have hrec := pass1_record llm tb ma mb ta cache i hi
  rw [recordAt, hc] at hrec
  refine ⟨j₀, _, hc, rfl, hr1, hr2, hxm0.1, hxm0.2, hr4, hrec, ?_, rfl, rfl, ?_, ?_, rfl,
    ?_, ?_⟩
  · -- membership in the returned list
    obtain ⟨hout, -⟩ := cross_ok_nonempty llm ta tb ma mb cache out cache' ha hb hok
    rw [hout]
    rw [sortByDate_eq_mergeSort]
    rw [List.mem_mergeSort]
    exact List.mem_append_left _ (List.getElem?_mem hrec)
  · -- tie or higher score for A selects A's original
    intro hle
    unfold merge_record select_best_description
    simp only [if_pos hle]
  · -- strictly higher score for B selects B's original
    intro hlt
    unfold merge_record select_best_description
    simp only [if_neg (not_le.mpr hlt)]
  · -- no other step consumes the same B-index
    intro i' hi' hne
    exact chosen_injective llm tb ma mb ta cache i i' j₀ hi hi' (fun he => hne he.symm) hc
  · -- the consumed index is in the final matched set
    have : (pass1t llm tb ma mb ta [] cache).2.1 = matchedAt llm tb ma mb ta cache ta.length := by
      unfold matchedAt
      rw [List.take_length]
    rw [this]
    exact matched_mono llm tb ma mb ta cache (i + 1) ta.length (by omega) j₀
      (chosen_mem_next llm tb ma mb ta cache i j₀ hi hc)

/-- A-side transaction of the C1 witness. -/
def c1a : Txn :=
  { transactionDate := mkStr ("03/01/2025"), place := mkStr ("AbcdA"),
    placeOriginal := mkStr ("ABCD"), amount := some (mkRat 1999 100) }

/-- B-side transaction of the C1 witness. -/
def c1b : Txn :=
  { transactionDate := mkStr ("03/01/2025"), place := mkStr ("EfghB"),
    placeOriginal := mkStr ("EFGH"), amount := some (mkRat 1999 100) }

/-- Cache of the C1 witness (pre-cleans the selected original). -/
def c1cache : Cache := [(mkStr ("ABCD"), mkStr ("Walmart"))]

/-- The single merged record of the C1 witness run. -/
def c1rec : Txn :=
  { transactionDate := mkStr ("03/01/2025"), place := mkStr ("Walmart"),
    placeOriginal := mkStr ("ABCD"), amount := some (mkRat 1999 100),
    extractionMethod := some (matchedTag (mkStr ("pdfplumber")) (mkStr ("OCR"))) }

/-- C1, witness: a concrete returning run in which a matching pair produces
one merged, tagged record in the returned list. -/
theorem C1_witness :
    cross_reference_transactions llmOff [c1a] [c1b] (mkStr ("pdfplumber")) (mkStr ("OCR"))
      c1cache = .ok ([c1rec], c1cache) ∧
    ∃ (j₀ : Nat) (rec : Txn),
      chosenAt llmOff [c1b] (mkStr ("pdfplumber")) (mkStr ("OCR")) [c1a] c1cache 0 =
        some j₀ ∧
      rec ∈ [c1rec] ∧
      rec.extractionMethod = some (matchedTag (mkStr ("pdfplumber")) (mkStr ("OCR"))) := by
  refine ⟨rfl, ?_⟩
  obtain ⟨j₀, rec, h1, h2, h3, h4, h5, h6, h7, h8, h9, h10, h11, h12, h13, h14, h15, h16⟩ :=
    C1_greedy_match_merge llmOff [c1a] [c1b] (mkStr ("pdfplumber")) (mkStr ("OCR")) c1cache 0
      [c1rec] c1cache (by decide) (by decide) (by decide) rfl
      ⟨0, by decide, by decide, rfl, mkRat 1999 100, mkRat 1999 100, rfl, rfl, by decide⟩
  exact ⟨j₀, rec, h1, h9, h10⟩

/-- A-side transaction of the C1 counterexample (amount 0.03). -/
def c1xa : Txn :=
  { transactionDate := mkStr ("03/01/2025"), place := mkStr ("AbcdA"),
    placeOriginal := mkStr ("ABCD"), amount := some (mkRat 3 100) }

/-- First B-side entry of the C1 counterexample (amount 0.01: exactly 0.02
away from 0.03 in exact arithmetic, yet within the float tolerance, since
`0.03 - 0.01` rounds to just below `0.02` in binary64). -/
def c1xb1 : Txn :=
  { transactionDate := mkStr ("03/01/2025"), place := mkStr ("EfghB"),
    placeOriginal := mkStr ("EFGH"), amount := some (mkRat 1 100) }

/-- Second B-side entry of the C1 counterexample (amount 0.025: within the
exact tolerance, so the first entry the claim's reading selects). -/
def c1xb2 : Txn :=
  { transactionDate := mkStr ("03/01/2025"), place := mkStr ("IjklB"),
    placeOriginal := mkStr ("IJKL"), amount := some (mkRat 25 1000) }

/-- The record the counterexample run merges (with the first B-entry). -/
def c1xrec : Txn :=
  { transactionDate := mkStr ("03/01/2025"), place := mkStr ("Walmart"),
    placeOriginal := mkStr ("ABCD"), amount := some (mkRat 3 100),
    extractionMethod := some (matchedTag (mkStr ("pdfplumber")) (mkStr ("OCR"))) }

/-- C1, counterexample: the claim reads the tolerance as "amount differing
by less than 0.02 in absolute value".  With A = [0.03] and
B = [0.01-entry, 0.025-entry] (all on one date), the first B-entry whose
amount differs from 0.03 by less than 0.02 is the 0.025-entry (the
0.01-entry differs by exactly 0.02), so under the claim that pair merges
and the 0.025-entry "is never emitted separately".  The program instead
applies `abs(float(0.03) - float(0.01)) < 0.02`, which is true in binary64,
merges with the 0.01-entry, and emits the 0.025-entry separately with the
`OCR only` tag. -/
theorem C1_counterexample :
    ratAbsDiffLt (mkRat 3 100) (mkRat 1 100) (mkRat 2 100) = false ∧
    fltAbsLt002 (mkRat 3 100) (mkRat 1 100) = true ∧
    ratAbsDiffLt (mkRat 3 100) (mkRat 25 1000) (mkRat 2 100) = true ∧
    xrefAmount c1xa = some (mkRat 3 100) ∧
    xrefAmount c1xb1 = some (mkRat 1 100) ∧
    xrefAmount c1xb2 = some (mkRat 25 1000) ∧
    cross_reference_transactions llmOff [c1xa] [c1xb1, c1xb2] (mkStr ("pdfplumber"))
      (mkStr ("OCR")) c1cache =
      .ok ([c1xrec, { c1xb2 with extractionMethod := some (onlyTag (mkStr ("OCR"))) }],
        c1cache) ∧
    c1xrec.placeOriginal = select_best_description c1xa.placeOriginal c1xb1.placeOriginal
      c1xa.placeOriginal c1xb1.placeOriginal :=
  ⟨by decide, by decide, by decide, rfl, rfl, rfl, rfl, rfl⟩

/-- Occurrences of `b` in a `filterMap` count the positions mapped to it. -/
theorem count_filterMap_eq (f : Nat → Option Nat) (b : Nat) :
    ∀ l : List Nat, (l.filterMap f).count b = l.countP (fun a => f a == some b) := by
  intro l
  induction l with
  | nil => rfl
  | cons a t ih =>
    rw [List.filterMap_cons, List.countP_cons]
    cases hf : f a with
    | none => simp [hf, ih]
    | some c =>
      rw [List.count_cons, ih]
      by_cases hcb : c = b
      · simp [hf, hcb]
      · simp [hf, hcb]

/-- The filtered range of unmatched indices is a permutation-free count:
the positions of `range n` satisfying `contains` are exactly the matched
list, up to permutation. -/
theorem filter_contains_perm (m : List Nat) (n : Nat) (hnd : m.Nodup)
    (hsub : ∀ j ∈ m, j < n) :
    ((List.range n).filter (fun i => m.contains i)).Perm m := by
  apply List.perm_of_nodup_nodup_toFinset_eq
  · exact (List.nodup_range n).filter _
  · exact hnd
  · ext a
    simp only [List.mem_toFinset, List.mem_filter, List.mem_range]
    constructor
    · intro ⟨_, h2⟩
      simpa using h2
    · intro h
      exact ⟨hsub a h, by simpa using h⟩

/-- Length of the matched-index filter over the range. -/
theorem countP_contains_range (m : List Nat) (n : Nat) (hnd : m.Nodup)
    (hsub : ∀ j ∈ m, j < n) :
    (List.range n).countP (fun i => m.contains i) = m.length := by
  rw [List.countP_eq_length_filter]
  exact (filter_contains_perm m n hnd hsub).length_eq

/-- Partition of a count over a Boolean predicate. -/
theorem countP_not_add (p : Nat → Bool) (l : List Nat) :
    l.countP (fun a => !(p a)) + l.countP p = l.length := by
  have h := List.length_eq_countP_add_countP p l
  have he : l.countP (fun a => decide ¬(p a = true)) = l.countP (fun a => !(p a)) :=
    List.countP_congr (fun a _ => by cases p a <;> simp)
  omega

/-- A count over the first components of `enum` is a count over the range. -/
theorem enum_countP_fst (tb : List Txn) (f : Nat → Bool) :
    tb.enum.countP (fun p => f p.1) = (List.range tb.length).countP f := by
  rw [← List.enum_map_fst tb, List.countP_map]
  rfl

/-- Each B-index contributes to the unmatched pass-2 pool exactly when it
is not matched, and then exactly once. -/
theorem enum_filter_countP (tb : List Txn) (m : List Nat) (j : Nat) (hj : j < tb.length) :
    (tb.enum.filter (fun p => !(m.contains p.1))).countP (fun p => p.1 == j) =
      if m.contains j then 0 else 1 := by
  rw [List.countP_filter]
  have h1 : tb.enum.countP (fun p => p.1 == j && !(m.contains p.1)) =
      (List.range tb.length).countP (fun i => i == j && !(m.contains i)) :=
    enum_countP_fst tb (fun i => i == j && !(m.contains i))
  rw [h1]
  by_cases hc : m.contains j = true
  · rw [if_pos hc]
    apply List.countP_eq_zero.mpr
    intro i hi
    intro h
    have h1 := (Bool.and_eq_true _ _).mp h
    have h2 : m.contains i = false := by
      cases hm : m.contains i
      · rfl
      · rw [hm] at h1
        exact Bool.noConfusion h1.2
    have h3 : i = j := beq_iff_eq.mp h1.1
    rw [h3, hc] at h2
    exact Bool.noConfusion h2
  · rw [if_neg hc]
    have hcf : m.contains j = false := by
      cases h : m.contains j
      · rfl
      · exact absurd h hc
    have h2 : (List.range tb.length).countP (fun i => i == j && !(m.contains i)) =
        (List.range tb.length).countP (fun i => i == j) := by
      apply List.countP_congr
      intro i hi
      by_cases hij : i = j
      · subst hij
        rw [hcf, Bool.not_false, Bool.and_true]
      · rw [beq_eq_false_iff_ne.mpr hij, Bool.false_and]
    rw [h2]
    have h3 : (List.range tb.length).countP (fun i => i == j) =
        (List.range tb.length).count j := by
      rw [List.count]
    rw [h3]
    exact List.count_eq_one_of_mem (List.nodup_range tb.length) (List.mem_range.mpr hj)

/-- Pass-2 pool size: the unmatched indices of `transactions_b`. -/
theorem p2_pool_length (tb : List Txn) (m : List Nat) (hnd : m.Nodup)
    (hsub : ∀ j ∈ m, j < tb.length) :
    (tb.enum.filter (fun p => !(m.contains p.1))).length = tb.length - m.length := by
  rw [← List.countP_eq_length_filter]
  have h1 : tb.enum.countP (fun p => !(m.contains p.1)) =
      (List.range tb.length).countP (fun i => !(m.contains i)) :=
    enum_countP_fst tb (fun i => !(m.contains i))
  rw [h1]
  have h2 : (List.range tb.length).countP (fun i => !(m.contains i)) +
      (List.range tb.length).countP (fun i => m.contains i) =
      (List.range tb.length).length :=
    countP_not_add (fun i => m.contains i) (List.range tb.length)
  have h3 := countP_contains_range m tb.length hnd hsub
  have hlen : (List.range tb.length).length = tb.length := List.length_range tb.length
  omega

/-- Full-pass matched set equals the matched component of pass 1. -/
theorem matchedAt_full (llm : LLM) (bl : List Txn) (ma mb : Str) (al : List Txn)
    (cache : Cache) :
    matchedAt llm bl ma mb al cache al.length = (pass1t llm bl ma mb al [] cache).2.1 := by
  simp only [matchedAt, List.take_length]

/-- A sample record for the conservation analysis of
`cross_reference_transactions`. -/
def c10a : Txn :=
  { transactionDate := mkStr ("04/02/2025"), place := mkStr ("Abc"),
    placeOriginal := mkStr ("Abc"), amount := some (mkRat 5 1) }

/-- A second sample record, dated differently so that no pair matches. -/
def c10b : Txn :=
  { transactionDate := mkStr ("04/03/2025"), place := mkStr ("Xyz"),
    placeOriginal := mkStr ("Xyz"), amount := some (mkRat 7 1) }

/-- C10: counterexample — when list B is empty, `cross_reference_transactions`
returns list A untouched: the surviving record carries no
`_extraction_method` tag at all, so the element of A is neither "the base of
a matched merge" nor "tagged as unique to A's method" as the claim states
for every pair of input lists. -/
theorem C10_counterexample :
    cross_reference_transactions llmOff [c10a] [] (mkStr ("pdfplumber"))
      (mkStr ("OCR")) [] = .ok ([c10a], []) ∧
    c10a.extractionMethod = none ∧
    c10a.extractionMethod ≠ some (onlyTag (mkStr ("pdfplumber"))) ∧
    c10a.extractionMethod ≠ some (matchedTag (mkStr ("pdfplumber")) (mkStr ("OCR"))) :=
  ⟨rfl, rfl, by decide, by decide⟩

/-- C10: for non-empty inputs, whenever `cross_reference_transactions`
returns at all (it instead raises when an equal-date comparison reads a
present-but-`None` amount key), it neither drops nor duplicates a
transaction.  The matched B-index list is duplicate-free, within bounds
and no longer than B; the returned list has exactly `len(A) + len(B) − m`
records where `m` counts the matched pairs; pass 1 emits exactly one
record per A-entry, at that entry's own position (the base of a matched
merge or the A-only passthrough); the returned list is a permutation of
the pass-1 records followed by the unmatched B-records; and every B-index
is consumed by exactly one record — the unique pass-1 step that chose it,
or its unique unmatched pass-2 passthrough. -/
theorem C10_conservation (llm : LLM) (ta tb : List Txn) (ma mb : Str) (cache : Cache)
    (out : List Txn) (cache' : Cache) (ha : ta ≠ []) (hb : tb ≠ [])
    (hok : cross_reference_transactions llm ta tb ma mb cache = .ok (out, cache')) :
    (matchedAt llm tb ma mb ta cache ta.length).Nodup ∧
    (∀ j ∈ matchedAt llm tb ma mb ta cache ta.length, j < tb.length) ∧
    (matchedAt llm tb ma mb ta cache ta.length).length ≤ tb.length ∧
    out.length =
      ta.length + tb.length - (matchedAt llm tb ma mb ta cache ta.length).length ∧
    (pass1t llm tb ma mb ta [] cache).1.length = ta.length ∧
    (∀ i, i < ta.length →
      (pass1t llm tb ma mb ta [] cache).1[i]? =
        some (recordAt llm tb ma mb ta cache i)) ∧
    out.Perm
      ((pass1t llm tb ma mb ta [] cache).1 ++
        (tb.enum.filter
            (fun p => !((matchedAt llm tb ma mb ta cache ta.length).contains p.1))).map
          (fun p => { p.2 with extractionMethod := some (onlyTag mb) })) ∧
    (∀ j, j < tb.length →
      (List.range ta.length).countP
          (fun i => chosenAt llm tb ma mb ta cache i == some j) +
        (tb.enum.filter
            (fun p => !((matchedAt llm tb ma mb ta cache ta.length).contains p.1))).countP
          (fun p => p.1 == j) = 1) := by
  have hnd := matched_nodup llm tb ma mb ta cache ta.length (le_refl _)
  have hlt := matched_lt llm tb ma mb ta cache ta.length (le_refl _)
  have hmle : (matchedAt llm tb ma mb ta cache ta.length).length ≤ tb.length := by
    have h1 := (filter_contains_perm _ tb.length hnd hlt).length_eq
    have h2 := List.length_filter_le
      (fun i => (matchedAt llm tb ma mb ta cache ta.length).contains i)
      (List.range tb.length)
    rw [List.length_range] at h2
    omega
  obtain ⟨hout, -⟩ := cross_ok_nonempty llm ta tb ma mb cache out cache' ha hb hok
  have hcross : out = sortByDate ((pass1t llm tb ma mb ta [] cache).1 ++
      (tb.enum.filter
          (fun p => !((matchedAt llm tb ma mb ta cache ta.length).contains p.1))).map
        (fun p => { p.2 with extractionMethod := some (onlyTag mb) })) := by
    rw [matchedAt_full]
    exact hout
  have hperm : out.Perm
      ((pass1t llm tb ma mb ta [] cache).1 ++
        (tb.enum.filter
            (fun p => !((matchedAt llm tb ma mb ta cache ta.length).contains p.1))).map
          (fun p => { p.2 with extractionMethod := some (onlyTag mb) })) := by
    rw [hcross]
    rw [sortByDate_eq_mergeSort]
    exact List.mergeSort_perm _ _
  have hp2 : ((tb.enum.filter
        (fun p => !((matchedAt llm tb ma mb ta cache ta.length).contains p.1))).map
      (fun p => { p.2 with extractionMethod := some (onlyTag mb) })).length =
      tb.length - (matchedAt llm tb ma mb ta cache ta.length).length := by
    rw [List.length_map]
    exact p2_pool_length tb _ hnd hlt
  have hlen : out.length =
      ta.length + tb.length - (matchedAt llm tb ma mb ta cache ta.length).length := by
    rw [hperm.length_eq, List.length_append, pass1_length, hp2]
    omega
  have hcount : ∀ j, j < tb.length →
      (List.range ta.length).countP
          (fun i => chosenAt llm tb ma mb ta cache i == some j) +
        (tb.enum.filter
            (fun p => !((matchedAt llm tb ma mb ta cache ta.length).contains p.1))).countP
          (fun p => p.1 == j) = 1 := by
    intro j hj
    have hfm := matchedAt_eq_filterMap llm tb ma mb ta cache ta.length (le_refl _)
    have hc1 : (List.range ta.length).countP
        (fun i => chosenAt llm tb ma mb ta cache i == some j) =
        (matchedAt llm tb ma mb ta cache ta.length).count j := by
      rw [hfm]
      exact (count_filterMap_eq (chosenAt llm tb ma mb ta cache) j
        (List.range ta.length)).symm
    have hc2 := enum_filter_countP tb (matchedAt llm tb ma mb ta cache ta.length) j hj
    rw [hc1, hc2]
    by_cases hmem : j ∈ matchedAt llm tb ma mb ta cache ta.length
    · rw [List.count_eq_one_of_mem hnd hmem, if_pos (by simpa using hmem)]
    · rw [List.count_eq_zero_of_not_mem hmem, if_neg (by simpa using hmem)]
  exact ⟨hnd, hlt, hmle, hlen, pass1_length llm tb ma mb ta [] cache,
    fun i hi => pass1_record llm tb ma mb ta cache i hi, hperm, hcount⟩

/-- The list the C10 witness run returns. -/
def c10out : List Txn :=
  [{ c10a with extractionMethod := some (onlyTag (mkStr ("pdfplumber"))) },
   { c10b with extractionMethod := some (onlyTag (mkStr ("OCR"))) }]

/-- Witness for C10 at a concrete returning pair of one-element lists. -/
theorem C10_witness :
    ([c10a] : List Txn) ≠ [] ∧ ([c10b] : List Txn) ≠ [] ∧
    cross_reference_transactions llmOff [c10a] [c10b] (mkStr ("pdfplumber"))
      (mkStr ("OCR")) [] = .ok (c10out, []) ∧
    ((matchedAt llmOff [c10b] (mkStr ("pdfplumber")) (mkStr ("OCR")) [c10a] []
        ([c10a] : List Txn).length).Nodup ∧
    (∀ j ∈ matchedAt llmOff [c10b] (mkStr ("pdfplumber")) (mkStr ("OCR")) [c10a] []
        ([c10a] : List Txn).length, j < ([c10b] : List Txn).length) ∧
    (matchedAt llmOff [c10b] (mkStr ("pdfplumber")) (mkStr ("OCR")) [c10a] []
        ([c10a] : List Txn).length).length ≤ ([c10b] : List Txn).length ∧
    c10out.length =
      ([c10a] : List Txn).length + ([c10b] : List Txn).length -
        (matchedAt llmOff [c10b] (mkStr ("pdfplumber")) (mkStr ("OCR")) [c10a] []
          ([c10a] : List Txn).length).length ∧
    (pass1t llmOff [c10b] (mkStr ("pdfplumber")) (mkStr ("OCR")) [c10a] [] []).1.length =
      ([c10a] : List Txn).length ∧
    (∀ i, i < ([c10a] : List Txn).length →
      (pass1t llmOff [c10b] (mkStr ("pdfplumber")) (mkStr ("OCR")) [c10a] [] []).1[i]? =
        some (recordAt llmOff [c10b] (mkStr ("pdfplumber")) (mkStr ("OCR")) [c10a] [] i)) ∧
    c10out.Perm
      ((pass1t llmOff [c10b] (mkStr ("pdfplumber")) (mkStr ("OCR")) [c10a] [] []).1 ++
        (([c10b] : List Txn).enum.filter
            (fun p => !((matchedAt llmOff [c10b] (mkStr ("pdfplumber")) (mkStr ("OCR"))
              [c10a] [] ([c10a] : List Txn).length).contains p.1))).map
          (fun p => { p.2 with extractionMethod := some (onlyTag (mkStr ("OCR"))) })) ∧
    (∀ j, j < ([c10b] : List Txn).length →
      (List.range ([c10a] : List Txn).length).countP
          (fun i => chosenAt llmOff [c10b] (mkStr ("pdfplumber")) (mkStr ("OCR"))
            [c10a] [] i == some j) +
        (([c10b] : List Txn).enum.filter
            (fun p => !((matchedAt llmOff [c10b] (mkStr ("pdfplumber")) (mkStr ("OCR"))
              [c10a] [] ([c10a] : List Txn).length).contains p.1))).countP
          (fun p => p.1 == j) = 1)) :=
  ⟨by decide, by decide, rfl,
    C10_conservation llmOff [c10a] [c10b] (mkStr ("pdfplumber")) (mkStr ("OCR")) []
      c10out [] (by decide) (by decide) rfl⟩

/-- An A-side entry whose get-chain reads a `Debits` key stored as `None`
(`Amount` absent, `Debits` present holding `None`). -/
def cErrA : Txn :=
  { transactionDate := mkStr ("03/01/2025"), place := mkStr ("AbcdA"),
    placeOriginal := mkStr ("ABCD"), debits := some none,
    credits := some (some (mkRat 5 1)), balance := some (mkRat 100 1) }

/-- The raising path of `cross_reference_transactions` is reachable: an
entry with a present-but-`None` `Debits` key, compared against an
equal-date entry of the other list, makes the call raise (`float(None)`). -/
theorem cross_reference_raises :
    cross_reference_transactions llmOff [cErrA] [c1xb1] (mkStr ("pdfplumber"))
      (mkStr ("OCR")) [] = .error () := rfl

/-- Such entries are reachable parser outputs: `_build_transaction` stores
the `Debits` key holding `None` whenever the first of three amounts is not
positive (and `Credits` likewise for the second). -/
theorem debits_none_reachable :
    ((build_transaction llmOff [] (mkStr ("03/01/2025")) (mkStr ("ACME CORP"))
      [0, mkRat 5 1, mkRat 100 1]).1.map (fun t => (t.amount, t.debits, t.credits))) =
      some (none, some none, some (some (mkRat 5 1))) := by
  rfl
